import Mathlib

/-!
A shallow embedding of the catalog-validator engine (`src/index.js`):
the CSV-style tokenizer `parseFile`, the schema table `SCHEMA` with its
format checkers and data-dependent cardinality checks, the record mapper
`parseEntry`, and the validation pipeline `validateValue` / `validateField` /
`validateEntry` / `validate`.  JavaScript strings are modelled as `String` /
`List Char`, JS exceptions as `Except String`, and the two injected external
lookups (SPDX licenses, IETF language tags) as an `Externals` record of
boolean predicates.
-/

namespace CatalogValidator

/-! ## Tokenizer (`parseFile`, lines 152-167)

The JS tokenizer is `file.trim().match(/("([^"]|"")*?"|[^,\n]*)(,|\n|$)/g)`.
We embed the regex as a scanner over `List Char`: at each position the quoted
alternative (lazy star, with full backtracking) is tried first, then the
greedy unquoted alternative, and the trailing separator group is part of each
token, exactly as in the regex. -/

/-- JS `String.prototype.trim` whitespace test: the full ECMA-262 set,
i.e. WhiteSpace (tab, vertical tab, form feed, space, no-break space,
zero-width no-break space, and every Space_Separator code point) together
with the LineTerminator code points. -/
def wsChar (c : Char) : Bool :=
  c == ' ' || c == '\t' || c == '\n' || c == '\r' ||
  c == '\x0b' || c == '\x0c' || c == '\u00a0' || c == '\u1680' ||
  ('\u2000' ≤ c && c ≤ '\u200a') ||
  c == '\u2028' || c == '\u2029' || c == '\u202f' || c == '\u205f' ||
  c == '\u3000' || c == '\ufeff'

/-- Trim from the left. -/
def ltrimL (cs : List Char) : List Char := cs.dropWhile wsChar

/-- Trim from the right. -/
def rtrimL (cs : List Char) : List Char := (cs.reverse.dropWhile wsChar).reverse

/-- JS `file.trim()`. -/
def trimL (cs : List Char) : List Char := rtrimL (ltrimL cs)

/-- The separator group `(,|\n|$)`: returns the consumed separator text and
the remainder, or `none` when no separator matches here. -/
def matchSep (cs : List Char) : Option (List Char × List Char) :=
  match cs with
  | [] => some ([], [])
  | c :: r =>
    if c = ',' then some ([','], r)
    else if c = '\n' then some (['\n'], r)
    else none

/-- The interior of the quoted alternative: after the opening `"`, match
`([^"]|"")*?"` lazily, requiring the separator group right after the closing
quote (the continuation the lazy star backtracks against).  Returns the body
(escaped, without the surrounding quotes), the separator text, and the rest
of the input. -/
def qtry : List Char → Option (List Char × List Char × List Char)
  | [] => none
  | c :: r =>
    if c = '"' then
      (matchSep r).elim
        (match r with
         | c2 :: r2 =>
           if c2 = '"' then (qtry r2).map (fun p => ('"' :: '"' :: p.1, p.2))
           else none
         | [] => none)
        (fun p => some ([], p.1, p.2))
    else
      (qtry r).map (fun p => (c :: p.1, p.2))

/-- The unquoted alternative `[^,\n]*` followed by the separator group.  It
always succeeds; the consumed separator character (if any) is part of the
token. -/
def uMatch : List Char → List Char × List Char
  | [] => ([], [])
  | c :: r =>
    if c = ',' ∨ c = '\n' then ([c], r)
    else ((uMatch r).1.cons c, (uMatch r).2)

/-- One regex match at the current position: quoted alternative first, then
the unquoted one.  Returns (token including its trailing separator, rest). -/
def tokenAt (cs : List Char) : List Char × List Char :=
  match cs with
  | '"' :: r =>
    (match qtry r with
     | some (body, sep, rest) => ('"' :: body ++ '"' :: sep, rest)
     | none => uMatch cs)
  | _ => uMatch cs

/-- Fuelled global matching loop of `.match(..../g)`: the final match is the
empty token at the end of the input (dropped later by `.slice(0, -1)`). -/
def tokensF : Nat → List Char → List (List Char)
  | 0, _ => []
  | _ + 1, [] => [[]]
  | fuel + 1, c :: cs =>
    (tokenAt (c :: cs)).1 :: tokensF fuel (tokenAt (c :: cs)).2

/-- All matches of the token regex over the input. -/
def tokenize (cs : List Char) : List (List Char) := tokensF (cs.length + 1) cs

/-- JS `value.replace(/""/g, '"')`: left-to-right non-overlapping replacement
of quote pairs. -/
def replacePairs : List Char → List Char
  | [] => []
  | [c] => [c]
  | c1 :: c2 :: r =>
    if c1 = '"' ∧ c2 = '"' then '"' :: replacePairs r
    else c1 :: replacePairs (c2 :: r)

/-- JS `value.replace(/[,\n]$/, '')`: strip one trailing separator. -/
def stripSep (cs : List Char) : List Char :=
  match cs.getLast? with
  | some c => if c = ',' ∨ c = '\n' then cs.dropLast else cs
  | none => cs

/-- JS `value.slice(1, -1)`. -/
def slice1m1 (cs : List Char) : List Char := (cs.drop 1).dropLast

/-- The per-token step of the reduce: strip the trailing separator, then
unescape and unwrap a quoted field (a field not starting with `"` is kept
verbatim). -/
def processValue (v : List Char) : List Char :=
  match stripSep v with
  | '"' :: r => slice1m1 (replacePairs ('"' :: r))
  | r => r

/-- The row-building reduce (lines 157-165): tokens ending in `\n` close the
current row.  State is (completed rows, row under construction). -/
def buildGo : List (List (List Char)) × List (List Char) → List (List Char) →
    List (List (List Char))
  | (completed, current), [] => completed ++ [current]
  | (completed, current), v :: ts =>
    if v.getLast? = some '\n' then
      buildGo (completed ++ [current ++ [processValue v]], []) ts
    else
      buildGo (completed, current ++ [processValue v]) ts

/-- `parseFile` (lines 152-167): trim, tokenize, drop the final empty match,
build rows, and drop the first row (the header). -/
def parseFile (file : String) : List (List String) :=
  ((buildGo ([], []) ((tokenize (trimL file.toList)).dropLast)).map
    (fun row => row.map (fun f => String.mk f))).drop 1

/-- All rows of a character sequence, before the header-dropping `.slice(1)`:
used to state what `parseFile` returns relative to the full row sequence. -/
def allRows (cs : List Char) : List (List String) :=
  (buildGo ([], []) ((tokenize cs).dropLast)).map
    (fun row => row.map (fun f => String.mk f))

/-- The CSV escaping of a field body: each literal `"` is written `""`
(specification-side description of the dialect, used to state round-trip
properties of the tokenizer). -/
def escQuotes : List Char → List Char
  | [] => []
  | c :: r =>
    if c = '"' then '"' :: '"' :: escQuotes r
    else c :: escQuotes r

/-- Split a quote-free, newline-free line at commas (the shape the tokenizer
gives to a plain header line). -/
def splitComma : List Char → List (List Char)
  | [] => [[]]
  | c :: r =>
    if c = ',' then [] :: splitComma r
    else
      match splitComma r with
      | s :: ss => (c :: s) :: ss
      | [] => [[c]]

/-- The tokens a plain line contributes: every comma-separated segment keeps
its `,` separator, and the last one keeps the closing `\n`. -/
def lineToks : List (List Char) → List (List Char)
  | [] => []
  | [s] => [s ++ ['\n']]
  | s :: s2 :: ss => (s ++ [',']) :: lineToks (s2 :: ss)

/-! ## Data model

A record field holds either a scalar string, a split sequence of strings, or
JS `undefined` (a missing trailing column consumed by `row.shift()`). -/

/-- A record field value. -/
inductive Value where
  | scalar (s : String)
  | multi (ss : List String)
  | undef
deriving DecidableEq

/-- A mapped record: field name to value, in schema insertion order. -/
abbrev Entry := List (String × Value)

/-- The injected external lookups: SPDX license-id membership
(`spdx-license-list`) and IETF language-tag conformance
(`ietf-language-tag-regex`), both consumed as black-box boolean services. -/
structure Externals where
  license : String → Bool
  language : String → Bool

/-- A `multiple` attribute: a static boolean or a data-dependent function of
the whole record (which, following JS exception behaviour, may throw). -/
inductive Card where
  | b (val : Bool)
  | fn (f : Entry → Except String Bool)

/-- A `format` attribute: a literal list (JS array), a regular expression
(kept with its `source` text for the error message), or a named function. -/
inductive Format where
  | list (xs : List String)
  | regex (src : String) (test : String → Bool)
  | func (name : String) (test : String → Bool)

/-- One field rule of a sheet schema. -/
structure Rule where
  required : Bool
  multiple : Card
  format : Option Format

/-- The messages of the `TypeError`s that the source can raise
(`error.message` of `TypeError: Cannot read properties of undefined ...`). -/
def typeErrLength : String := "Cannot read properties of undefined (reading 'length')"

def typeErrToString : String := "Cannot read properties of undefined (reading 'toString')"

def typeErrSplit : String := "Cannot read properties of undefined (reading 'split')"

def typeErrRequired : String := "Cannot read properties of undefined (reading 'required')"

def typeErrFormat : String := "Cannot read properties of undefined (reading 'format')"

/-! ## Format checkers (`FORMATS`, lines 5-20)

Each regex literal of the source is embedded as an executable matcher over
`List Char` together with its `source` text (used in error messages). -/

/-- JS `Array.prototype.join(sep)`. -/
def joinWith (sep : String) : List String → String
  | [] => ""
  | [x] => x
  | x :: y :: r => x ++ sep ++ joinWith sep (y :: r)

/-- `^B\d+$`. -/
def testID (s : String) : Bool :=
  match s.toList with
  | c :: r => c = 'B' && !r.isEmpty && r.all Char.isDigit
  | [] => false

/-- `^[0-9]{4}-[0-9]{3}[0-9X]$`. -/
def testISSN (s : String) : Bool :=
  match s.toList with
  | [c1, c2, c3, c4, d, c5, c6, c7, c8] =>
    c1.isDigit && c2.isDigit && c3.isDigit && c4.isDigit && d = '-' &&
    c5.isDigit && c6.isDigit && c7.isDigit && (c8.isDigit || c8 = 'X')
  | _ => false

/-- `^(\d{13}|\d{9}[0-9X])$`. -/
def testISBN (s : String) : Bool :=
  let cs := s.toList
  (cs.length = 13 && cs.all Char.isDigit) ||
  (cs.length = 10 && (cs.take 9).all Char.isDigit &&
    (match cs.drop 9 with
     | [c] => c.isDigit || c = 'X'
     | _ => false))

/-- `^10\.` (the DOI pattern is only anchored at the start). -/
def testDOI (s : String) : Bool :=
  match s.toList with
  | '1' :: '0' :: '.' :: _ => true
  | _ => false

/-- `^Q[1-9][0-9]*$`. -/
def testQID (s : String) : Bool :=
  match s.toList with
  | c :: d :: r => c = 'Q' && '1' ≤ d && d ≤ '9' && r.all Char.isDigit
  | _ => false

/-- Consume exactly `n` digits. -/
def eatDigits : Nat → List Char → Option (List Char)
  | 0, cs => some cs
  | _ + 1, [] => none
  | n + 1, c :: r => if c.isDigit then eatDigits n r else none

/-- The EDTF time-of-day tail `T\d{2}:\d{2}:\d{2}(Z|[-+]\d{2}(:\d{2})?)`,
starting at the `T`. -/
def edtfTime (cs : List Char) : Option (List Char) :=
  match cs with
  | 'T' :: r =>
    (eatDigits 2 r).bind fun r1 =>
      match r1 with
      | ':' :: r2 =>
        (eatDigits 2 r2).bind fun r3 =>
          match r3 with
          | ':' :: r4 =>
            (eatDigits 2 r4).bind fun r5 =>
              match r5 with
              | 'Z' :: r6 => some r6
              | c :: r6 =>
                if c = '+' ∨ c = '-' then
                  (eatDigits 2 r6).bind fun r7 =>
                    match r7 with
                    | ':' :: r8 => eatDigits 2 r8
                    | _ => some r7
                else none
              | [] => none
          | _ => none
      | _ => none
  | _ => none

/-- The first EDTF alternative `\d{4}(-\d{2}(-\d{2}(T...)?)?)?` matched
against the whole string. -/
def testEDTFSingle (cs : List Char) : Bool :=
  match eatDigits 4 cs with
  | none => false
  | some r =>
    match r with
    | [] => true
    | '-' :: r2 =>
      (match eatDigits 2 r2 with
       | none => false
       | some r3 =>
         match r3 with
         | [] => true
         | '-' :: r4 =>
           (match eatDigits 2 r4 with
            | none => false
            | some r5 =>
              match r5 with
              | [] => true
              | 'T' :: _ => (edtfTime r5).isSome && (edtfTime r5).getD [] = []
              | _ => false)
         | _ => false)
    | _ => false

/-- One side of an EDTF range: `\d{4}(-\d{2}(-\d{2})?)?`. -/
def edtfPart (cs : List Char) : Option (List Char) :=
  (eatDigits 4 cs).bind fun r =>
    match r with
    | '-' :: r2 =>
      (eatDigits 2 r2).bind fun r3 =>
        match r3 with
        | '-' :: r4 => eatDigits 2 r4
        | _ => some r3
    | _ => some r

/-- The second EDTF alternative, a `/`-separated range. -/
def testEDTFRange (cs : List Char) : Bool :=
  match edtfPart cs with
  | some ('/' :: r) =>
    (match edtfPart r with
     | some [] => true
     | _ => false)
  | _ => false

/-- The `EDTF_0` pattern. -/
def testEDTF (s : String) : Bool :=
  testEDTFSingle s.toList || testEDTFRange s.toList

/-- Character class `[-a-zA-Z0-9@:%._\+~#=]` of the URL host part. -/
def urlCoreChar (c : Char) : Bool :=
  c.isAlphanum || c = '-' || c = '@' || c = ':' || c = '%' || c = '.' ||
  c = '_' || c = '+' || c = '~' || c = '#' || c = '='

/-- Character class `[a-zA-Z0-9()]` of the URL TLD part. -/
def urlTldChar (c : Char) : Bool :=
  c.isAlphanum || c = '(' || c = ')'

/-- Character class `[-a-zA-Z0-9()@:%_\+.~#?&//=]` of the URL tail. -/
def urlTailChar (c : Char) : Bool :=
  c.isAlphanum || c = '-' || c = '(' || c = ')' || c = '@' || c = ':' ||
  c = '%' || c = '_' || c = '+' || c = '.' || c = '~' || c = '#' ||
  c = '?' || c = '&' || c = '/' || c = '='

/-- `\w` for the `\b` word boundary. -/
def isWordChar (c : Char) : Bool := c.isAlphanum || c = '_'

/-- The `\b` boundary after the last TLD character, given the rest. -/
def wordBoundaryAfter (c : Char) (rest : List Char) : Bool :=
  match rest with
  | [] => isWordChar c
  | h :: _ => !(isWordChar c == isWordChar h)

/-- `[a-zA-Z0-9()]{1,6}\b(TAIL*)$`, having already consumed `k` TLD
characters: try every admissible TLD length. -/
def tryTld (k : Nat) : List Char → Bool
  | [] => false
  | c :: r =>
    urlTldChar c && k < 6 &&
    ((wordBoundaryAfter c r && r.all urlTailChar) || tryTld (k + 1) r)

/-- `CORE{1,256}\.TLD{1,6}\b(TAIL*)$`, having already consumed `k` core
characters: try every admissible split of core, dot and TLD. -/
def tryCore (k : Nat) : List Char → Bool
  | [] => false
  | c :: r =>
    urlCoreChar c && k < 256 &&
    ((match r with
      | '.' :: r2 => tryTld 0 r2
      | _ => false) || tryCore (k + 1) r)

/-- The URL pattern
`^https?:\/\/(www\.)?CORE{1,256}\.TLD{1,6}\b(TAIL*)$` as a satisfiability
check over all decompositions (which is what regex backtracking computes). -/
def testURL (s : String) : Bool :=
  match s.toList with
  | 'h' :: 't' :: 't' :: 'p' :: r =>
    let afterScheme : List Char → Bool := fun cs =>
      match cs with
      | ':' :: '/' :: '/' :: r2 =>
        (match r2 with
         | 'w' :: 'w' :: 'w' :: '.' :: r3 => tryCore 0 r3
         | _ => false) || tryCore 0 r2
      | _ => false
    (match r with
     | 's' :: r2 => afterScheme r2
     | _ => false) || afterScheme r
  | _ => false

/-! ## The `FORMATS` table (lines 5-20) -/

namespace FORMATS

def ENTRY_TYPE : List String := ["print", "online", "cd"]

def KEY_TYPE : List String :=
  ["key", "matrix", "reference", "gallery", "checklist", "supplement", "collection"]

def COMPLETE : List String := ["TRUE", "FALSE"]

def ID : Format := .regex "^B\\d+$" testID

def URL : Format :=
  .regex
    "^https?:\\/\\/(www\\.)?[-a-zA-Z0-9@:%._\\+~#=]\x7b1,256\x7d\\.[a-zA-Z0-9()]\x7b1,6\x7d\\b([-a-zA-Z0-9()@:%_\\+.~#?&//=]*)$"
    testURL

def EDTF_0 : Format :=
  .regex
    "^(\\d\x7b4\x7d(-\\d\x7b2\x7d(-\\d\x7b2\x7d(T\\d\x7b2\x7d:\\d\x7b2\x7d:\\d\x7b2\x7d(Z|[-+]\\d\x7b2\x7d(:\\d\x7b2\x7d)?))?)?)?|\\d\x7b4\x7d(-\\d\x7b2\x7d(-\\d\x7b2\x7d)?)?\\/\\d\x7b4\x7d(-\\d\x7b2\x7d(-\\d\x7b2\x7d)?)?)$"
    testEDTF

def ISSN_L : Format := .regex "^[0-9]\x7b4\x7d-[0-9]\x7b3\x7d[0-9X]$" testISSN

def ISBN : Format := .regex "^(\\d\x7b13\x7d|\\d\x7b9\x7d[0-9X])$" testISBN

def DOI : Format := .regex "^10\\." testDOI

def QID : Format := .regex "^Q[1-9][0-9]*$" testQID

def LICENSE (EXT : Externals) : Format := .func "LICENSE" EXT.license

def LANGUAGE (EXT : Externals) : Format := .func "LANGUAGE" EXT.language

end FORMATS

/-! ## Data-dependent cardinality checks (`CHECK`, lines 22-33) -/

/-- First-match lookup of a field value in a record (JS property access). -/
def lookupVal : Entry → String → Option Value
  | [], _ => none
  | (f, v) :: r, field => if f = field then some v else lookupVal r field

/-- JS `entry.f.length`: array length for a split value, string length for a
scalar, and `none` (a `TypeError` at the use site) when `entry.f` is
`undefined`. -/
def jsLenOf (entry : Entry) (field : String) : Option Nat :=
  match lookupVal entry field with
  | some (.scalar s) => some s.length
  | some (.multi ss) => some ss.length
  | some .undef => none
  | none => none

/-- `CHECK.MULTILANG` (line 23): `entry.language.length > 1`. -/
def CHECK_MULTILANG (entry : Entry) : Except String Bool :=
  match jsLenOf entry "language" with
  | some n => .ok (decide (n > 1))
  | none => .error typeErrLength

/-- `CHECK.ISBN` (lines 25-32).  With fewer than two ISBNs the source
returns `false`; with two or more it evaluates
`entry.ISBN.length[0].length`, i.e. indexes into a number, which yields
`undefined` and throws a `TypeError` when `.length` is read from it. -/
def CHECK_ISBN (entry : Entry) : Except String Bool :=
  match jsLenOf entry "ISBN" with
  | some n => if n < 2 then .ok false else .error typeErrLength
  | none => .error typeErrLength

/-! ## The schema table (`SCHEMA`, lines 35-82) -/

/-- The four registered sheets with their field rules, in declaration order.
A sheet name outside the closed set yields no fields, mirroring JS
`for...in` over `undefined`. -/
def SCHEMA (EXT : Externals) (sheet : String) : List (String × Rule) :=
  match sheet with
  | "catalog" =>
    [("id", ⟨true, .b false, some FORMATS.ID⟩),
     ("title", ⟨true, .fn CHECK_MULTILANG, none⟩),
     ("author", ⟨false, .b true, none⟩),
     ("url", ⟨false, .b true, some FORMATS.URL⟩),
     ("fulltext_url", ⟨false, .b true, some FORMATS.URL⟩),
     ("archive_url", ⟨false, .b true, some FORMATS.URL⟩),
     ("entry_type", ⟨true, .b false, some (.list FORMATS.ENTRY_TYPE)⟩),
     ("date", ⟨false, .b false, some FORMATS.EDTF_0⟩),
     ("publisher", ⟨false, .b true, none⟩),
     ("series", ⟨false, .b false, none⟩),
     ("ISSN", ⟨false, .b false, some FORMATS.ISSN_L⟩),
     ("ISBN", ⟨false, .fn CHECK_ISBN, some FORMATS.ISBN⟩),
     ("DOI", ⟨false, .b false, some FORMATS.DOI⟩),
     ("QID", ⟨false, .b false, some FORMATS.QID⟩),
     ("volume", ⟨false, .b false, none⟩),
     ("issue", ⟨false, .b false, none⟩),
     ("pages", ⟨false, .b false, none⟩),
     ("edition", ⟨false, .b false, none⟩),
     ("language", ⟨true, .b true, some (FORMATS.LANGUAGE EXT)⟩),
     ("license", ⟨false, .b true, some (FORMATS.LICENSE EXT)⟩),
     ("key_type", ⟨true, .b true, some (.list FORMATS.KEY_TYPE)⟩),
     ("taxon", ⟨true, .b true, none⟩),
     ("scope", ⟨false, .b true, none⟩),
     ("region", ⟨true, .b true, none⟩),
     ("complete", ⟨false, .b false, some (.list FORMATS.COMPLETE)⟩),
     ("target_taxa", ⟨false, .b true, none⟩),
     ("part_of", ⟨false, .b true, some FORMATS.ID⟩)]
  | "authors" =>
    [("name", ⟨true, .b false, none⟩),
     ("qid", ⟨false, .b false, some FORMATS.QID⟩),
     ("main_full_name", ⟨false, .b false, none⟩),
     ("full_names", ⟨false, .b true, none⟩)]
  | "publishers" =>
    [("name", ⟨true, .b false, none⟩),
     ("qid", ⟨false, .b false, some FORMATS.QID⟩),
     ("full_name", ⟨false, .b false, none⟩),
     ("long_name", ⟨false, .b true, none⟩)]
  | "places" =>
    [("name", ⟨true, .b false, none⟩),
     ("qid", ⟨false, .b false, some FORMATS.QID⟩),
     ("display_name", ⟨false, .b false, none⟩)]
  | _ => []

/-- Rule lookup `SCHEMA[sheet][field]`. -/
def lookupRule : List (String × Rule) → String → Option Rule
  | [], _ => none
  | (f, r) :: rest, field => if f = field then some r else lookupRule rest field

/-! ## Record mapper (`parseEntry`, lines 142-150) -/

/-- JS `'a; b'.split('; ')`: split on the literal two-character separator,
leftmost-first, keeping empty segments. -/
def splitSepL : List Char → List (List Char)
  | [] => [[]]
  | [c] => [[c]]
  | c1 :: c2 :: r =>
    if c1 = ';' ∧ c2 = ' ' then [] :: splitSepL r
    else
      match splitSepL (c2 :: r) with
      | s :: ss => (c1 :: s) :: ss
      | [] => [[c1]]

/-- String-level `split('; ')`. -/
def splitSep (s : String) : List String := (splitSepL s.toList).map (fun l => String.mk l)

/-- Whether a `multiple` attribute is truthy at mapping time (a function
value is truthy without being invoked). -/
def truthyCard : Card → Bool
  | .b v => v
  | .fn _ => true

/-- The loop body of `parseEntry`: consume the row left to right in schema
field order; a truthy `multiple` splits the raw string.  When the row is
exhausted, `row.shift()` yields `undefined`: splitting it throws, storing it
keeps `undefined` in the record. -/
def parseEntryGo : List (String × Rule) → List String → Except String Entry
  | [], _ => .ok []
  | (f, r) :: fs, v :: row =>
    (parseEntryGo fs row).map
      (fun e => (f, if truthyCard r.multiple then Value.multi (splitSep v) else Value.scalar v) :: e)
  | (f, r) :: fs, [] =>
    if truthyCard r.multiple then .error typeErrSplit
    else (parseEntryGo fs []).map (fun e => (f, Value.undef) :: e)

/-- `parseEntry` (lines 142-150). -/
def parseEntry (EXT : Externals) (row : List String) (sheet : String) : Except String Entry :=
  parseEntryGo (SCHEMA EXT sheet) row

/-! ## Validator (lines 84-140, 169-183) -/

/-- JS `entry[field].toString()` for a defined value: arrays stringify by
joining with `,`. -/
def valToString : Value → String
  | .scalar s => s
  | .multi ss => joinWith "," ss
  | .undef => ""

/-- `'; '` containment as a two-character substring test. -/
def containsSepL : List Char → Bool
  | [] => false
  | [_] => false
  | c1 :: c2 :: r => (c1 = ';' && c2 = ' ') || containsSepL (c2 :: r)

/-- JS `entry[field].includes('; ')`: substring test on a scalar string, but
element membership on a split array — the split can never contain the
separator itself. -/
def valIncludesSep : Value → Bool
  | .scalar s => containsSepL s.toList
  | .multi ss => ss.contains "; "
  | .undef => false

/-- The scalars of a field value: a split field is checked value by value, a
scalar field as a single value. -/
def scalarsOf : Value → List String
  | .scalar s => [s]
  | .multi ss => ss
  | .undef => []

/-- Resolve a `multiple` attribute at validation time (line 103-105): invoke
a function value on the full record. -/
def resolveCard (c : Card) (entry : Entry) : Except String Bool :=
  match c with
  | .b v => .ok v
  | .fn f => f entry

def msgRequired : String := "Value(s) required but missing"

def msgMultiple : String := "Multiple values but only one expected"

def msgNotIncluded (v : String) (xs : List String) : String :=
  "The value \"" ++ v ++ "\" is not included: " ++ joinWith ", " xs

def msgPattern (v p : String) : String :=
  "The value \"" ++ v ++ "\" does not conform to pattern: " ++ p

/-- `validateValue` (lines 84-94): dispatch on the declared format kind. -/
def validateValue (EXT : Externals) (_entry : Entry) (sheet field value : String) :
    Except String Unit :=
  match lookupRule (SCHEMA EXT sheet) field with
  | none => .error typeErrFormat
  | some rule =>
    match rule.format with
    | none => .ok ()
    | some (.list xs) =>
      if xs.contains value then .ok () else .error (msgNotIncluded value xs)
    | some (.regex src test) =>
      if test value then .ok () else .error (msgPattern value src)
    | some (.func name test) =>
      if test value then .ok () else .error (msgPattern value name)

/-- The per-value loop of `validateField` (lines 111-122): collect the error
message of every failing scalar, in order. -/
def collectValueErrors (EXT : Externals) (entry : Entry) (sheet field : String) :
    List String → List String
  | [] => []
  | v :: r =>
    match validateValue EXT entry sheet field v with
    | .error m => m :: collectValueErrors EXT entry sheet field r
    | .ok _ => collectValueErrors EXT entry sheet field r

/-- `validateField` (lines 96-126): requiredness, then emptiness, then
cardinality, then format.  A thrown `TypeError` (undefined value, or the
buggy `CHECK.ISBN`) surfaces as the field's error like any violation. -/
def validateField (EXT : Externals) (entry : Entry) (sheet field : String) :
    Except String Unit :=
  match lookupRule (SCHEMA EXT sheet) field with
  | none => .error typeErrRequired
  | some rule =>
    match lookupVal entry field with
    | none => .error typeErrToString
    | some .undef => .error typeErrToString
    | some v =>
      if rule.required && valToString v == "" then .error msgRequired
      else if valToString v == "" then .ok ()
      else
        match resolveCard rule.multiple entry with
        | .error e => .error e
        | .ok m =>
          if !m && valIncludesSep v then .error msgMultiple
          else
            match v with
            | .multi ss =>
              (match collectValueErrors EXT entry sheet field ss with
               | [] => .ok ()
               | e :: es => .error (joinWith "; " (e :: es)))
            | .scalar sc => validateValue EXT entry sheet field sc
            | .undef => .error typeErrToString

/-- `validateEntry` (lines 128-140): every field is checked; failures are
caught, labelled with the field name, and joined with newlines. -/
def validateEntry (EXT : Externals) (entry : Entry) (sheet : String) :
    Except String Unit :=
  match entry.foldl
      (fun acc fv =>
        match validateField EXT entry sheet fv.1 with
        | .error m => acc ++ [fv.1 ++ ": " ++ m]
        | .ok _ => acc) [] with
  | [] => .ok ()
  | e :: es => .error (joinWith "\n" (e :: es))

/-- One iteration of the `validate` loop (lines 173-179): map the row, then
validate it; both steps run inside the same `try`. -/
def runEntry (EXT : Externals) (sheet : String) (row : List String) :
    Except String Unit :=
  match parseEntry EXT row sheet with
  | .error m => .error m
  | .ok e => validateEntry EXT e sheet

/-- The `===== id =====` banner prefixing each failing record's errors. -/
def entryBanner (row : List String) : String :=
  "===== " ++ row.headD "undefined" ++ " ====="

/-- The aggregated error list of a run of `validate` (lines 172-179). -/
def validateErrors (EXT : Externals) (file sheet : String) : List String :=
  (parseFile file).foldl
    (fun acc row =>
      match runEntry EXT sheet row with
      | .error m => acc ++ [entryBanner row ++ "\n" ++ m]
      | .ok _ => acc) []

/-- `validate` (lines 169-183): throw the aggregated report iff any row
failed. -/
def validate (EXT : Externals) (file sheet : String) : Except String Unit :=
  match validateErrors EXT file sheet with
  | [] => .ok ()
  | e :: es => .error ("\n" ++ joinWith "\n\n" (e :: es))

/-- A concrete instantiation of the external lookup services, for evaluating
the engine on closed inputs. -/
def EXT0 : Externals := ⟨fun _ => true, fun _ => true⟩

/-! ## Tokenizer invariants -/

theorem qtry_cons (c : Char) (r : List Char) :
    qtry (c :: r) =
      if c = '"' then
        (matchSep r).elim
          (match r with
           | c2 :: r2 =>
             if c2 = '"' then (qtry r2).map (fun p => ('"' :: '"' :: p.1, p.2))
             else none
           | [] => none)
          (fun p => some ([], p.1, p.2))
      else (qtry r).map (fun p => (c :: p.1, p.2)) := by
  rw [qtry.eq_def]

theorem uMatch_cons (c : Char) (r : List Char) :
    uMatch (c :: r) =
      if c = ',' ∨ c = '\n' then ([c], r)
      else ((uMatch r).1.cons c, (uMatch r).2) := by
  rw [uMatch.eq_def]

theorem replacePairs_cons₂ (c1 c2 : Char) (r : List Char) :
    replacePairs (c1 :: c2 :: r) =
      if c1 = '"' ∧ c2 = '"' then '"' :: replacePairs r
      else c1 :: replacePairs (c2 :: r) := by
  rw [replacePairs.eq_def]

theorem tokenAt_quote (r : List Char) :
    tokenAt ('"' :: r) =
      match qtry r with
      | some (body, sep, rest) => ('"' :: body ++ '"' :: sep, rest)
      | none => uMatch ('"' :: r) := by
  rw [tokenAt.eq_def]
  split
  · rename_i r2 heq
    rw [List.cons.injEq] at heq
    rw [heq.2]
  · rename_i hno
    exact absurd rfl (hno r)

theorem tokenAt_not_quote (c : Char) (r : List Char) (hc : c ≠ '"') :
    tokenAt (c :: r) = uMatch (c :: r) := by
  rw [tokenAt.eq_def]
  split
  · rename_i r' heq
    rw [List.cons.injEq] at heq
    exact absurd heq.1 hc
  · rfl

theorem matchSep_append {cs s r : List Char} (h : matchSep cs = some (s, r)) :
    s ++ r = cs := by
  cases cs with
  | nil => simp [matchSep] at h; simp [h.1, h.2]
  | cons c cr =>
    simp only [matchSep] at h
    split at h
    · cases h; simp_all
    · split at h
      · cases h; simp_all
      · cases h

theorem uMatch_append (cs : List Char) : (uMatch cs).1 ++ (uMatch cs).2 = cs := by
  induction cs with
  | nil => rfl
  | cons c r ih =>
    simp only [uMatch]
    split
    · simp
    · simpa using ih

theorem qtry_append_bounded :
    ∀ (n : Nat) (cs : List Char), cs.length ≤ n →
      ∀ b s r, qtry cs = some (b, s, r) → b ++ '"' :: (s ++ r) = cs := by
  intro n
  induction n with
  | zero =>
    intro cs hlen b s r h
    have hnil : cs = [] := List.length_eq_zero.mp (Nat.le_zero.mp hlen)
    subst hnil
    rw [qtry.eq_def] at h
    simp at h
  | succ n ih =>
    intro cs hlen b s r h
    cases cs with
    | nil => rw [qtry.eq_def] at h; simp at h
    | cons c cr =>
      rw [qtry.eq_def] at h
      simp only [] at h
      by_cases hc : c = '"'
      · subst hc
        rw [if_pos rfl] at h
        cases hsep : matchSep cr with
        | some p =>
          rw [hsep] at h
          simp only [Option.elim] at h
          obtain ⟨sep, rest⟩ := p
          simp only [Option.some.injEq, Prod.mk.injEq] at h
          obtain ⟨hb, hs, hr⟩ := h
          subst hb; subst hs; subst hr
          simpa using matchSep_append hsep
        | none =>
          rw [hsep] at h
          simp only [Option.elim] at h
          cases cr with
          | nil => simp at h
          | cons c2 r2 =>
            replace h :
                (if c2 = '"' then
                    Option.map (fun p => ('"' :: '"' :: p.1, p.2)) (qtry r2)
                  else none) = some (b, s, r) := h
            by_cases hc2 : c2 = '"'
            · subst hc2
              rw [if_pos rfl] at h
              cases hq : qtry r2 with
              | none => rw [hq] at h; simp at h
              | some q =>
                obtain ⟨b2, s2, rr2⟩ := q
                rw [hq] at h
                simp only [Option.map_some', Option.some.injEq, Prod.mk.injEq] at h
                obtain ⟨hb, hs, hr⟩ := h
                subst hb; subst hs; subst hr
                have hlen2 : r2.length ≤ n := by
                  simp only [List.length_cons] at hlen
                  omega
                have := ih r2 hlen2 b2 s2 rr2 hq
                simpa using this
            · rw [if_neg hc2] at h
              simp at h
      · rw [if_neg hc] at h
        cases hq : qtry cr with
        | none => rw [hq] at h; simp at h
        | some q =>
          obtain ⟨b2, s2, rr2⟩ := q
          rw [hq] at h
          simp only [Option.map_some', Option.some.injEq, Prod.mk.injEq] at h
          obtain ⟨hb, hs, hr⟩ := h
          subst hb; subst hs; subst hr
          have hlen2 : cr.length ≤ n := by
            simp only [List.length_cons] at hlen
            omega
          have := ih cr hlen2 b2 s2 rr2 hq
          simpa using this

theorem qtry_append {cs b s r : List Char} (h : qtry cs = some (b, s, r)) :
    b ++ '"' :: (s ++ r) = cs :=
  qtry_append_bounded cs.length cs (Nat.le_refl _) b s r h

theorem tokenAt_append (cs : List Char) : (tokenAt cs).1 ++ (tokenAt cs).2 = cs := by
  rw [tokenAt.eq_def]
  split
  · rename_i r
    cases hq : qtry r with
    | none => simpa using uMatch_append ('"' :: r)
    | some p =>
      obtain ⟨b, s, rest⟩ := p
      have := qtry_append hq
      simp only []
      simpa [List.append_assoc] using this
  · exact uMatch_append _

theorem uMatch_fst_ne_nil (c : Char) (r : List Char) : (uMatch (c :: r)).1 ≠ [] := by
  simp only [uMatch]
  split <;> simp

theorem tokenAt_fst_ne_nil (cs : List Char) (hne : cs ≠ []) : (tokenAt cs).1 ≠ [] := by
  rw [tokenAt.eq_def]
  split
  · rename_i r
    cases hq : qtry r with
    | none => simpa using uMatch_fst_ne_nil '"' r
    | some p =>
      obtain ⟨b, s, rest⟩ := p
      simp
  · cases cs with
    | nil => exact absurd rfl hne
    | cons c r => exact uMatch_fst_ne_nil c r

theorem tokenAt_snd_lt (cs : List Char) (hne : cs ≠ []) :
    (tokenAt cs).2.length < cs.length := by
  have happ := congrArg List.length (tokenAt_append cs)
  simp only [List.length_append] at happ
  have hpos : 0 < (tokenAt cs).1.length := List.length_pos.mpr (tokenAt_fst_ne_nil cs hne)
  omega

theorem tokensF_congr :
    ∀ (n : Nat) (cs : List Char) (f1 f2 : Nat), cs.length ≤ n →
      cs.length < f1 → cs.length < f2 → tokensF f1 cs = tokensF f2 cs := by
  intro n
  induction n with
  | zero =>
    intro cs f1 f2 hn h1 h2
    have hnil : cs = [] := List.length_eq_zero.mp (Nat.le_zero.mp hn)
    subst hnil
    cases f1 with
    | zero => omega
    | succ g1 =>
      cases f2 with
      | zero => omega
      | succ g2 => rfl
  | succ n ih =>
    intro cs f1 f2 hn h1 h2
    cases cs with
    | nil =>
      cases f1 with
      | zero => omega
      | succ g1 =>
        cases f2 with
        | zero => omega
        | succ g2 => rfl
    | cons c r =>
      cases f1 with
      | zero => omega
      | succ g1 =>
        cases f2 with
        | zero => omega
        | succ g2 =>
          simp only [tokensF]
          have hlt := tokenAt_snd_lt (c :: r) (by simp)
          have hrec : (tokenAt (c :: r)).2.length ≤ n := by
            simp only [List.length_cons] at hn hlt
            omega
          rw [ih (tokenAt (c :: r)).2 g1 g2 hrec (by omega) (by omega)]

theorem tokenize_nil : tokenize [] = [[]] := rfl

theorem tokenize_cons (c : Char) (r : List Char) :
    tokenize (c :: r) = (tokenAt (c :: r)).1 :: tokenize (tokenAt (c :: r)).2 := by
  show tokensF ((c :: r).length + 1) (c :: r) = _
  simp only [tokensF]
  rw [tokensF_congr (tokenAt (c :: r)).2.length (tokenAt (c :: r)).2 (c :: r).length
    ((tokenAt (c :: r)).2.length + 1) (Nat.le_refl _) (tokenAt_snd_lt (c :: r) (by simp))
    (Nat.lt_succ_self _)]
  rfl

theorem tokenize_ne_nil (cs : List Char) : tokenize cs ≠ [] := by
  cases cs with
  | nil => simp [tokenize_nil]
  | cons c r => rw [tokenize_cons]; simp

theorem tokenize_join_bounded :
    ∀ (n : Nat) (cs : List Char), cs.length ≤ n → (tokenize cs).flatten = cs := by
  intro n
  induction n with
  | zero =>
    intro cs hn
    have hnil : cs = [] := List.length_eq_zero.mp (Nat.le_zero.mp hn)
    subst hnil
    simp [tokenize_nil]
  | succ n ih =>
    intro cs hn
    cases cs with
    | nil => simp [tokenize_nil]
    | cons c r =>
      rw [tokenize_cons]
      simp only [List.flatten_cons]
      have hlt := tokenAt_snd_lt (c :: r) (by simp)
      have hrec : (tokenAt (c :: r)).2.length ≤ n := by
        simp only [List.length_cons] at hn hlt
        omega
      rw [ih _ hrec, tokenAt_append]

theorem tokenize_join (cs : List Char) : (tokenize cs).flatten = cs :=
  tokenize_join_bounded cs.length cs (Nat.le_refl _)

/-! ## Row-building lemmas -/

theorem buildGo_accum :
    ∀ (ts : List (List Char)) (C : List (List (List Char))) (cur : List (List Char)),
      buildGo (C, cur) ts = C ++ buildGo ([], cur) ts := by
  intro ts
  induction ts with
  | nil => intro C cur; simp [buildGo]
  | cons v ts ih =>
    intro C cur
    simp only [buildGo]
    split
    · simp only [List.nil_append]
      rw [ih (C ++ [cur ++ [processValue v]]) [], ih [cur ++ [processValue v]] []]
      simp
    · exact ih C _

theorem buildGo_no_newline :
    ∀ (ts : List (List Char)) (C : List (List (List Char))) (cur : List (List Char)),
      (∀ t ∈ ts, t.getLast? ≠ some '\n') →
      buildGo (C, cur) ts = C ++ [cur ++ ts.map processValue] := by
  intro ts
  induction ts with
  | nil => intro C cur _; simp [buildGo]
  | cons v ts ih =>
    intro C cur h
    simp only [buildGo]
    split
    · exact absurd (by assumption) (h v (List.mem_cons_self v ts))
    · rw [ih C _ (fun t ht => h t (List.mem_cons_of_mem v ht))]
      simp

/-! ## Trim lemmas -/

theorem dropWhile_append_left {p : Char → Bool} :
    ∀ (l m : List Char), (∃ x ∈ l, p x = false) →
      (l ++ m).dropWhile p = l.dropWhile p ++ m := by
  intro l
  induction l with
  | nil => intro m h; simp at h
  | cons c r ih =>
    intro m h
    by_cases hc : p c
    · simp only [List.cons_append, List.dropWhile_cons, hc, if_true]
      apply ih
      obtain ⟨x, hx, hpx⟩ := h
      rcases List.mem_cons.mp hx with rfl | hx'
      · rw [hc] at hpx; cases hpx
      · exact ⟨x, hx', hpx⟩
    · simp only [List.cons_append, List.dropWhile_cons, hc]
      simp [hc]

theorem rtrimL_append (l m : List Char) (h : ∃ x ∈ m, wsChar x = false) :
    rtrimL (l ++ m) = l ++ rtrimL m := by
  unfold rtrimL
  rw [List.reverse_append]
  rw [dropWhile_append_left m.reverse l.reverse (by simpa using h)]
  simp

theorem getLast?_mem : ∀ (l : List Char) (a : Char), l.getLast? = some a → a ∈ l := by
  intro l
  induction l with
  | nil => intro a h; simp at h
  | cons c r ih =>
    intro a h
    cases r with
    | nil => simp at h; simp [h]
    | cons c2 r2 =>
      rw [List.getLast?_cons_cons] at h
      exact List.mem_cons_of_mem c (ih a h)

theorem rtrimL_of_last_not_ws (cs : List Char) (c : Char)
    (hl : cs.getLast? = some c) (hw : wsChar c = false) : rtrimL cs = cs := by
  unfold rtrimL
  have hh : cs.reverse.head? = some c := by rw [List.head?_reverse, hl]
  cases hrev : cs.reverse with
  | nil => simp [hrev] at hh
  | cons c' rest =>
    rw [hrev] at hh
    simp only [List.head?_cons, Option.some.injEq] at hh
    subst hh
    rw [List.dropWhile_cons, hw]
    simp only [Bool.false_eq_true, if_false]
    rw [← hrev, List.reverse_reverse]

theorem ltrimL_cons_not_ws (c : Char) (r : List Char) (hw : wsChar c = false) :
    ltrimL (c :: r) = c :: r := by
  unfold ltrimL
  rw [List.dropWhile_cons, hw]
  simp

theorem trimL_all_ws (cs : List Char) (h : ∀ c ∈ cs, wsChar c = true) :
    trimL cs = [] := by
  unfold trimL
  have : ltrimL cs = [] := by
    unfold ltrimL
    rw [List.dropWhile_eq_nil_iff]
    intro x hx
    exact h x hx
  rw [this]
  rfl

/-! ## Single-line and whitespace-only inputs -/

theorem token_char_mem {cs t : List Char} {c : Char}
    (ht : t ∈ tokenize cs) (hc : c ∈ t) : c ∈ cs := by
  rw [← tokenize_join cs]
  exact List.mem_flatten.mpr ⟨t, ht, hc⟩

theorem no_newline_tokens {cs : List Char} (h : '\n' ∉ cs) :
    ∀ t ∈ (tokenize cs).dropLast, t.getLast? ≠ some '\n' := by
  intro t ht hlast
  have ht' : t ∈ tokenize cs := (List.dropLast_sublist (tokenize cs)).mem ht
  exact h (token_char_mem ht' (getLast?_mem t '\n' hlast))

theorem parseFile_no_newline (file : String) (h : '\n' ∉ trimL file.toList) :
    parseFile file = [] := by
  unfold parseFile
  rw [buildGo_no_newline _ _ _ (no_newline_tokens h)]
  simp

theorem validate_of_no_rows (EXT : Externals) (file sheet : String)
    (h : parseFile file = []) : validate EXT file sheet = .ok () := by
  unfold validate validateErrors
  rw [h]
  rfl

theorem parseFile_all_ws (file : String) (h : ∀ c ∈ file.toList, wsChar c = true) :
    parseFile file = [] := by
  unfold parseFile
  rw [trimL_all_ws _ h]
  rfl

/-! ## Quoted-field round trips -/

theorem qtry_esc :
    ∀ (b : List Char) (sep rest2 rest : List Char),
      matchSep rest = some (sep, rest2) →
      qtry (escQuotes b ++ '"' :: rest) = some (escQuotes b, sep, rest2) := by
  intro b
  induction b with
  | nil =>
    intro sep rest2 rest hsep
    rw [show escQuotes [] = [] from rfl, List.nil_append, qtry_cons]
    simp [hsep]
  | cons c b' ih =>
    intro sep rest2 rest hsep
    by_cases hc : c = '"'
    · subst hc
      rw [show escQuotes ('"' :: b') = '"' :: '"' :: escQuotes b' from by simp [escQuotes]]
      simp only [List.cons_append]
      rw [qtry_cons]
      have hms : matchSep ('"' :: (escQuotes b' ++ '"' :: rest)) = none := by
        simp [matchSep]
      rw [hms]
      simp only [Option.elim, if_pos rfl]
      rw [ih sep rest2 rest hsep]
      rfl
    · rw [show escQuotes (c :: b') = c :: escQuotes b' from by simp [escQuotes, hc]]
      simp only [List.cons_append]
      rw [qtry_cons, if_neg hc, ih sep rest2 rest hsep]
      rfl

theorem replacePairs_esc_concat :
    ∀ (b : List Char), replacePairs (escQuotes b ++ ['"']) = b ++ ['"'] := by
  intro b
  induction b with
  | nil => rfl
  | cons c b' ih =>
    by_cases hc : c = '"'
    · subst hc
      rw [show escQuotes ('"' :: b') = '"' :: '"' :: escQuotes b' from by simp [escQuotes]]
      simp only [List.cons_append]
      rw [replacePairs_cons₂, if_pos (And.intro rfl rfl), ih]
    · rw [show escQuotes (c :: b') = c :: escQuotes b' from by simp [escQuotes, hc]]
      simp only [List.cons_append]
      obtain ⟨c2, r2, he⟩ : ∃ c2 r2, escQuotes b' ++ ['"'] = c2 :: r2 := by
        cases hE : escQuotes b' with
        | nil => exact ⟨'"', [], rfl⟩
        | cons x xs => exact ⟨x, xs ++ ['"'], by simp⟩
      rw [he, replacePairs_cons₂, if_neg (by exact fun hand => hc hand.1), ← he, ih]

theorem replacePairs_wrapped :
    ∀ (b : List Char), (∃ c ∈ b, c ≠ '"') →
      replacePairs ('"' :: escQuotes b ++ ['"']) = '"' :: b ++ ['"'] := by
  intro b
  induction b with
  | nil => intro h; simp at h
  | cons c b' ih =>
    intro h
    by_cases hc : c = '"'
    · subst hc
      have hex : ∃ x ∈ b', x ≠ '"' := by
        obtain ⟨x, hx, hxq⟩ := h
        rcases List.mem_cons.mp hx with rfl | hx'
        · exact absurd rfl hxq
        · exact ⟨x, hx', hxq⟩
      rw [show escQuotes ('"' :: b') = '"' :: '"' :: escQuotes b' from by simp [escQuotes]]
      simp only [List.cons_append]
      rw [replacePairs_cons₂, if_pos (And.intro rfl rfl)]
      have := ih hex
      simp only [List.cons_append] at this
      rw [this]
    · rw [show escQuotes (c :: b') = c :: escQuotes b' from by simp [escQuotes, hc]]
      simp only [List.cons_append]
      rw [replacePairs_cons₂, if_neg (by exact fun hand => hc hand.2)]
      obtain ⟨c2, r2, he⟩ : ∃ c2 r2, escQuotes b' ++ ['"'] = c2 :: r2 := by
        cases hE : escQuotes b' with
        | nil => exact ⟨'"', [], rfl⟩
        | cons x xs => exact ⟨x, xs ++ ['"'], by simp⟩
      rw [he, replacePairs_cons₂, if_neg (by exact fun hand => hc hand.1), ← he,
        replacePairs_esc_concat]

theorem processValue_wrapped (b : List Char) (hb : b = [] ∨ ∃ c ∈ b, c ≠ '"') :
    processValue ('"' :: escQuotes b ++ ['"']) = b := by
  rcases hb with rfl | hex
  · rfl
  · unfold processValue
    have hstrip : stripSep ('"' :: escQuotes b ++ ['"']) = '"' :: escQuotes b ++ ['"'] := by
      unfold stripSep
      have : ('"' :: escQuotes b ++ ['"']).getLast? = some '"' := by
        rw [show '"' :: escQuotes b ++ ['"'] = ('"' :: escQuotes b) ++ ['"'] from rfl]
        exact List.getLast?_concat _
      rw [this]
      simp
    rw [hstrip]
    simp only [List.cons_append]
    rw [show replacePairs ('"' :: (escQuotes b ++ ['"'])) = '"' :: b ++ ['"'] from
      replacePairs_wrapped b hex]
    unfold slice1m1
    simp

theorem sep_free_uMatch :
    ∀ (u : List Char), (∀ c ∈ u, c ≠ ',' ∧ c ≠ '\n') → uMatch u = (u, []) := by
  intro u
  induction u with
  | nil => intro _; rfl
  | cons c r ih =>
    intro h
    rw [uMatch_cons]
    have hc := h c (List.mem_cons_self c r)
    rw [if_neg (by simpa using hc)]
    rw [ih (fun x hx => h x (List.mem_cons_of_mem c hx))]

/-- Tokenizing the two-line file `h\n<field>` where the field is a wrapped,
escaped body: the header row is dropped and the single remaining row holds
the unescaped body. -/
theorem parseFile_quoted_field (b : List Char) (hb : b = [] ∨ ∃ c ∈ b, c ≠ '"') :
    parseFile (String.mk ('h' :: '\n' :: '"' :: (escQuotes b ++ ['"']))) =
      [[String.mk b]] := by
  have htoList :
      (String.mk ('h' :: '\n' :: '"' :: (escQuotes b ++ ['"']))).toList =
        'h' :: '\n' :: '"' :: (escQuotes b ++ ['"']) := rfl
  have htrim :
      trimL ('h' :: '\n' :: '"' :: (escQuotes b ++ ['"'])) =
        'h' :: '\n' :: '"' :: (escQuotes b ++ ['"']) := by
    unfold trimL
    rw [ltrimL_cons_not_ws _ _ (by rfl)]
    apply rtrimL_of_last_not_ws _ '"'
    · rw [show 'h' :: '\n' :: '"' :: (escQuotes b ++ ['"']) =
          ('h' :: '\n' :: '"' :: escQuotes b) ++ ['"'] from by simp]
      exact List.getLast?_concat _
    · rfl
  have htok1 :
      tokenAt ('h' :: '\n' :: '"' :: (escQuotes b ++ ['"'])) =
        (['h', '\n'], '"' :: (escQuotes b ++ ['"'])) := by
    rw [tokenAt_not_quote _ _ (by decide)]
    rw [uMatch_cons, if_neg (by decide), uMatch_cons, if_pos (by decide)]
  have hq : qtry (escQuotes b ++ '"' :: []) = some (escQuotes b, [], []) :=
    qtry_esc b [] [] [] rfl
  have htok2 :
      tokenAt ('"' :: (escQuotes b ++ ['"'])) =
        ('"' :: (escQuotes b ++ ['"']), []) := by
    rw [tokenAt_quote]
    rw [show escQuotes b ++ ['"'] = escQuotes b ++ '"' :: [] from rfl, hq]
    simp
  have htokens :
      tokenize ('h' :: '\n' :: '"' :: (escQuotes b ++ ['"'])) =
        [['h', '\n'], '"' :: (escQuotes b ++ ['"']), []] := by
    rw [tokenize_cons, htok1]
    simp only []
    rw [tokenize_cons, htok2]
    simp only []
    rw [tokenize_nil]
  unfold parseFile
  rw [htoList, htrim, htokens]
  rw [show ([['h', '\n'], '"' :: (escQuotes b ++ ['"']), []] :
      List (List Char)).dropLast = [['h', '\n'], '"' :: (escQuotes b ++ ['"'])] from rfl]
  have hlast2 : ('"' :: (escQuotes b ++ ['"'])).getLast? = some '"' := by
    rw [show '"' :: (escQuotes b ++ ['"']) = ('"' :: escQuotes b) ++ ['"'] from by simp]
    exact List.getLast?_concat _
  rw [show buildGo ([], []) [['h', '\n'], '"' :: (escQuotes b ++ ['"'])] =
      buildGo ([[['h']]], []) ['"' :: (escQuotes b ++ ['"'])] from by
    rw [buildGo.eq_def]
    simp [show processValue ['h', '\n'] = ['h'] from rfl]]
  rw [buildGo.eq_def]
  simp only [hlast2]
  rw [if_neg (by simp)]
  rw [buildGo.eq_def]
  have hpv : processValue ('"' :: (escQuotes b ++ ['"'])) = b := by
    have := processValue_wrapped b hb
    simpa using this
  rw [hpv]
  simp

/-- Tokenizing the two-line file `h\n<field>` where the field is not wrapped
in quotes: the field is returned verbatim, with no unescaping. -/
theorem parseFile_unquoted_field (c0 : Char) (cs : List Char)
    (hq : c0 ≠ '"') (hsep : ∀ c ∈ c0 :: cs, c ≠ ',' ∧ c ≠ '\n')
    (hlast : ∃ cl, (c0 :: cs).getLast? = some cl ∧ wsChar cl = false) :
    parseFile (String.mk ('h' :: '\n' :: c0 :: cs)) = [[String.mk (c0 :: cs)]] := by
  obtain ⟨cl, hcl, hclws⟩ := hlast
  have hclmem : cl ∈ c0 :: cs := getLast?_mem _ _ hcl
  have hclsep := hsep cl hclmem
  have htrim : trimL ('h' :: '\n' :: c0 :: cs) = 'h' :: '\n' :: c0 :: cs := by
    unfold trimL
    rw [ltrimL_cons_not_ws _ _ (by rfl)]
    apply rtrimL_of_last_not_ws _ cl _ hclws
    rw [List.getLast?_cons_cons, List.getLast?_cons_cons]
    exact hcl
  have htok1 : tokenAt ('h' :: '\n' :: c0 :: cs) = (['h', '\n'], c0 :: cs) := by
    rw [tokenAt_not_quote _ _ (by decide)]
    rw [uMatch_cons, if_neg (by decide), uMatch_cons, if_pos (by decide)]
  have htok2 : tokenAt (c0 :: cs) = (c0 :: cs, []) := by
    rw [tokenAt_not_quote _ _ hq]
    exact sep_free_uMatch _ hsep
  have htokens :
      tokenize ('h' :: '\n' :: c0 :: cs) = [['h', '\n'], c0 :: cs, []] := by
    rw [tokenize_cons, htok1]
    simp only []
    rw [tokenize_cons, htok2]
    simp only []
    rw [tokenize_nil]
  unfold parseFile
  rw [show (String.mk ('h' :: '\n' :: c0 :: cs)).toList = 'h' :: '\n' :: c0 :: cs from rfl]
  rw [htrim, htokens]
  rw [show ([['h', '\n'], c0 :: cs, []] : List (List Char)).dropLast =
      [['h', '\n'], c0 :: cs] from rfl]
  rw [show buildGo ([], []) [['h', '\n'], c0 :: cs] =
      buildGo ([[['h']]], []) [c0 :: cs] from by
    rw [buildGo.eq_def]
    simp [show processValue ['h', '\n'] = ['h'] from rfl]]
  rw [buildGo.eq_def]
  simp only [hcl]
  have hclne : cl ≠ '\n' := by
    intro hh
    rw [hh] at hclws
    exact absurd hclws (by simp [wsChar])
  rw [if_neg (by simp [hclne])]
  rw [buildGo.eq_def]
  have hstrip : stripSep (c0 :: cs) = c0 :: cs := by
    unfold stripSep
    rw [hcl]
    show (if cl = ',' ∨ cl = '\n' then (c0 :: cs).dropLast else c0 :: cs) = c0 :: cs
    rw [if_neg (by simp [hclsep.1, hclsep.2])]
  have hpv : processValue (c0 :: cs) = c0 :: cs := by
    unfold processValue
    rw [hstrip]
    split
    · rename_i r heq
      rw [List.cons.injEq] at heq
      exact absurd heq.1 hq
    · rfl
  rw [hpv]
  simp

/-! ## Header-line tokenization -/

theorem first_comma_decomp :
    ∀ (l : List Char), (∀ c ∈ l, c ≠ ',') ∨
      ∃ sfx r, l = sfx ++ ',' :: r ∧ (∀ c ∈ sfx, c ≠ ',') := by
  intro l
  induction l with
  | nil => exact Or.inl (by simp)
  | cons c l' ih =>
    by_cases hc : c = ','
    · subst hc
      exact Or.inr ⟨[], l', by simp, by simp⟩
    · rcases ih with hfree | ⟨sfx, r, hdecomp, hfree⟩
      · refine Or.inl ?_
        intro x hx
        rcases List.mem_cons.mp hx with rfl | hx'
        · exact hc
        · exact hfree x hx'
      · refine Or.inr ⟨c :: sfx, r, by rw [hdecomp]; simp, ?_⟩
        intro x hx
        rcases List.mem_cons.mp hx with rfl | hx'
        · exact hc
        · exact hfree x hx'

theorem uMatch_upto_sep :
    ∀ (sfx : List Char) (sepc : Char) (m : List Char),
      (sepc = ',' ∨ sepc = '\n') → (∀ c ∈ sfx, c ≠ ',' ∧ c ≠ '\n') →
      uMatch (sfx ++ sepc :: m) = (sfx ++ [sepc], m) := by
  intro sfx
  induction sfx with
  | nil =>
    intro sepc m hsep _
    rw [List.nil_append, uMatch_cons, if_pos hsep]
    simp
  | cons c sfx' ih =>
    intro sepc m hsep h
    have hc := h c (List.mem_cons_self c sfx')
    rw [List.cons_append, uMatch_cons, if_neg (by simpa using hc)]
    rw [ih sepc m hsep (fun x hx => h x (List.mem_cons_of_mem c hx))]
    simp

theorem tokenAt_line (sfx : List Char) (sepc : Char) (m : List Char)
    (hsep : sepc = ',' ∨ sepc = '\n')
    (hq : ∀ c ∈ sfx, c ≠ '"') (hfree : ∀ c ∈ sfx, c ≠ ',' ∧ c ≠ '\n') :
    tokenAt (sfx ++ sepc :: m) = (sfx ++ [sepc], m) := by
  have hsepq : sepc ≠ '"' := by
    rcases hsep with rfl | rfl <;> decide
  cases sfx with
  | nil =>
    rw [List.nil_append, tokenAt_not_quote _ _ hsepq, uMatch_cons, if_pos hsep]
    simp
  | cons c sfx' =>
    rw [List.cons_append, tokenAt_not_quote _ _ (hq c (List.mem_cons_self c sfx'))]
    rw [← List.cons_append, uMatch_upto_sep (c :: sfx') sepc m hsep hfree]

theorem splitComma_comma_free :
    ∀ (l : List Char), (∀ c ∈ l, c ≠ ',') → splitComma l = [l] := by
  intro l
  induction l with
  | nil => intro _; rfl
  | cons c l' ih =>
    intro h
    rw [splitComma.eq_def]
    simp only []
    rw [if_neg (h c (List.mem_cons_self c l'))]
    rw [ih (fun x hx => h x (List.mem_cons_of_mem c hx))]

theorem splitComma_append :
    ∀ (sfx r : List Char), (∀ c ∈ sfx, c ≠ ',') →
      splitComma (sfx ++ ',' :: r) = sfx :: splitComma r := by
  intro sfx
  induction sfx with
  | nil =>
    intro r _
    rw [List.nil_append, splitComma.eq_def]
    simp
  | cons c sfx' ih =>
    intro r h
    rw [List.cons_append, splitComma.eq_def]
    simp only []
    rw [if_neg (h c (List.mem_cons_self c sfx'))]
    rw [ih r (fun x hx => h x (List.mem_cons_of_mem c hx))]

theorem splitComma_ne_nil (l : List Char) : splitComma l ≠ [] := by
  cases l with
  | nil => simp [splitComma]
  | cons c r =>
    rw [splitComma.eq_def]
    simp only []
    split
    · simp
    · split <;> simp

theorem splitComma_chars {P : Char → Prop} :
    ∀ (l : List Char), (∀ c ∈ l, P c) →
      ∀ seg ∈ splitComma l, ∀ c ∈ seg, P c := by
  intro l
  induction l with
  | nil =>
    intro _ seg hseg c hc
    simp only [splitComma, List.mem_singleton] at hseg
    subst hseg
    simp at hc
  | cons x l' ih =>
    intro h seg hseg c hc
    rw [splitComma.eq_def] at hseg
    simp only [] at hseg
    by_cases hx : x = ','
    · rw [if_pos hx] at hseg
      rcases List.mem_cons.mp hseg with rfl | hseg'
      · simp at hc
      · exact ih (fun y hy => h y (List.mem_cons_of_mem x hy)) seg hseg' c hc
    · rw [if_neg hx] at hseg
      cases hsc : splitComma l' with
      | nil => exact absurd hsc (splitComma_ne_nil l')
      | cons s ss =>
        rw [hsc] at hseg
        rcases List.mem_cons.mp hseg with rfl | hseg'
        · rcases List.mem_cons.mp hc with rfl | hc'
          · exact h c (List.mem_cons_self c l')
          · exact ih (fun y hy => h y (List.mem_cons_of_mem x hy)) s
              (by rw [hsc]; exact List.mem_cons_self s ss) c hc'
        · exact ih (fun y hy => h y (List.mem_cons_of_mem x hy)) seg
            (by rw [hsc]; exact List.mem_cons_of_mem s hseg') c hc

theorem splitComma_no_comma :
    ∀ (l : List Char), ∀ seg ∈ splitComma l, ∀ c ∈ seg, c ≠ ',' := by
  intro l
  induction l with
  | nil =>
    intro seg hseg c hc
    simp only [splitComma, List.mem_singleton] at hseg
    subst hseg
    simp at hc
  | cons x l' ih =>
    intro seg hseg c hc
    rw [splitComma.eq_def] at hseg
    simp only [] at hseg
    by_cases hx : x = ','
    · rw [if_pos hx] at hseg
      rcases List.mem_cons.mp hseg with rfl | hseg'
      · simp at hc
      · exact ih seg hseg' c hc
    · rw [if_neg hx] at hseg
      cases hsc : splitComma l' with
      | nil => exact absurd hsc (splitComma_ne_nil l')
      | cons s ss =>
        rw [hsc] at hseg
        rcases List.mem_cons.mp hseg with rfl | hseg'
        · rcases List.mem_cons.mp hc with rfl | hc'
          · exact hx
          · exact ih s (by rw [hsc]; exact List.mem_cons_self s ss) c hc'
        · exact ih seg (by rw [hsc]; exact List.mem_cons_of_mem s hseg') c hc

theorem tokenize_cons_of_ne_nil (cs : List Char) (h : cs ≠ []) :
    tokenize cs = (tokenAt cs).1 :: tokenize (tokenAt cs).2 := by
  cases cs with
  | nil => exact absurd rfl h
  | cons c r => exact tokenize_cons c r

theorem tokenize_line_bounded :
    ∀ (n : Nat) (l m : List Char), l.length ≤ n →
      (∀ c ∈ l, c ≠ '"') → (∀ c ∈ l, c ≠ '\n') →
      tokenize (l ++ '\n' :: m) = lineToks (splitComma l) ++ tokenize m := by
  intro n
  induction n with
  | zero =>
    intro l m hn _ _
    have hnil : l = [] := List.length_eq_zero.mp (Nat.le_zero.mp hn)
    subst hnil
    rw [List.nil_append]
    rw [tokenize_cons_of_ne_nil ('\n' :: m) (by simp)]
    rw [show tokenAt ('\n' :: m) = (['\n'], m) from by
      rw [tokenAt_not_quote _ _ (by decide), uMatch_cons, if_pos (by decide)]]
    simp [splitComma, lineToks]
  | succ n ih =>
    intro l m hn hq hnl
    rcases first_comma_decomp l with hfree | ⟨sfx, r, hdecomp, hsfxfree⟩
    · have hfree2 : ∀ c ∈ l, c ≠ ',' ∧ c ≠ '\n' :=
        fun c hc => ⟨hfree c hc, hnl c hc⟩
      rw [tokenize_cons_of_ne_nil (l ++ '\n' :: m) (by simp)]
      rw [tokenAt_line l '\n' m (Or.inr rfl) hq hfree2]
      rw [splitComma_comma_free l hfree]
      rw [show lineToks [l] = [l ++ ['\n']] from rfl]
      simp
    · subst hdecomp
      have hsfx2 : ∀ c ∈ sfx, c ≠ ',' ∧ c ≠ '\n' :=
        fun c hc => ⟨hsfxfree c hc,
          hnl c (by simp [List.mem_append, hc])⟩
      have hsfxq : ∀ c ∈ sfx, c ≠ '"' :=
        fun c hc => hq c (by simp [List.mem_append, hc])
      rw [show (sfx ++ ',' :: r) ++ '\n' :: m = sfx ++ ',' :: (r ++ '\n' :: m) from by simp]
      rw [tokenize_cons_of_ne_nil _ (by simp)]
      rw [tokenAt_line sfx ',' (r ++ '\n' :: m) (Or.inl rfl) hsfxq hsfx2]
      have hrlen : r.length ≤ n := by
        have : (sfx ++ ',' :: r).length ≤ n + 1 := hn
        simp [List.length_append] at this
        omega
      rw [ih r m hrlen
        (fun c hc => hq c (by simp [List.mem_append, hc]))
        (fun c hc => hnl c (by simp [List.mem_append, hc]))]
      rw [splitComma_append sfx r hsfxfree]
      cases hsc : splitComma r with
      | nil => exact absurd hsc (splitComma_ne_nil r)
      | cons seg segs =>
        rw [show lineToks (sfx :: seg :: segs) =
          (sfx ++ [',']) :: lineToks (seg :: segs) from rfl]
        simp

theorem processValue_plain_seg (seg : List Char) (sepc : Char)
    (hsep : sepc = ',' ∨ sepc = '\n') (hq : ∀ c ∈ seg, c ≠ '"') :
    processValue (seg ++ [sepc]) = seg := by
  have hstrip : stripSep (seg ++ [sepc]) = seg := by
    unfold stripSep
    rw [List.getLast?_concat]
    show (if sepc = ',' ∨ sepc = '\n' then (seg ++ [sepc]).dropLast else seg ++ [sepc]) = seg
    rw [if_pos hsep, List.dropLast_concat]
  unfold processValue
  rw [hstrip]
  cases seg with
  | nil => rfl
  | cons c r =>
    split
    · rename_i r2 heq
      rw [List.cons.injEq] at heq
      exact absurd heq.1 (hq c (List.mem_cons_self c r))
    · rfl

theorem buildGo_lineToks :
    ∀ (segs : List (List Char)), segs ≠ [] →
      (∀ seg ∈ segs, ∀ c ∈ seg, c ≠ '"') →
      ∀ (C : List (List (List Char))) (cur : List (List Char)) (ts : List (List Char)),
      buildGo (C, cur) (lineToks segs ++ ts) = buildGo (C ++ [cur ++ segs], []) ts := by
  intro segs
  induction segs with
  | nil => intro h; exact absurd rfl h
  | cons s segs' ih =>
    intro _ hq C cur ts
    cases segs' with
    | nil =>
      rw [show lineToks [s] = [s ++ ['\n']] from rfl]
      rw [List.cons_append, List.nil_append, buildGo.eq_def]
      simp only []
      rw [if_pos (by rw [List.getLast?_concat])]
      rw [processValue_plain_seg s '\n' (Or.inr rfl)
        (hq s (List.mem_cons_self s []))]
    | cons s2 segs'' =>
      rw [show lineToks (s :: s2 :: segs'') =
        (s ++ [',']) :: lineToks (s2 :: segs'') from rfl]
      rw [List.cons_append, buildGo.eq_def]
      simp only []
      rw [if_neg (by rw [List.getLast?_concat]; decide)]
      rw [processValue_plain_seg s ',' (Or.inl rfl)
        (hq s (List.mem_cons_self s _))]
      rw [ih (by simp) (fun seg hseg => hq seg (List.mem_cons_of_mem s hseg)) C
        (cur ++ [s]) ts]
      simp

theorem dropLast_append_ne_nil :
    ∀ (A B : List (List Char)), B ≠ [] → (A ++ B).dropLast = A ++ B.dropLast := by
  intro A
  induction A with
  | nil => intro B _; simp
  | cons a A' ih =>
    intro B hB
    rw [List.cons_append]
    rw [List.dropLast_cons_of_ne_nil (by simp [hB])]
    rw [ih B hB]
    rfl

/-- `parseFile` on a file whose first line is a plain (quote-free,
newline-free) header: the result is exactly the full row sequence of the
remaining text, i.e. rows start at the second line. -/
theorem parseFile_drops_first_line (c0 : Char) (l1 rest : List Char)
    (hws : wsChar c0 = false)
    (hq : ∀ c ∈ c0 :: l1, c ≠ '"') (hn : ∀ c ∈ c0 :: l1, c ≠ '\n')
    (hrest : ∃ x ∈ rest, wsChar x = false) :
    parseFile (String.mk (c0 :: l1 ++ '\n' :: rest)) = allRows (rtrimL rest) := by
  unfold parseFile
  rw [show (String.mk (c0 :: l1 ++ '\n' :: rest)).toList = c0 :: l1 ++ '\n' :: rest from rfl]
  have htrim : trimL (c0 :: l1 ++ '\n' :: rest) = c0 :: l1 ++ '\n' :: rtrimL rest := by
    unfold trimL
    rw [show c0 :: l1 ++ '\n' :: rest = c0 :: (l1 ++ '\n' :: rest) from by simp] at *
    rw [ltrimL_cons_not_ws _ _ hws]
    rw [show c0 :: (l1 ++ '\n' :: rest) = (c0 :: l1 ++ ['\n']) ++ rest from by simp]
    rw [rtrimL_append _ _ hrest]
    simp
  rw [htrim]
  rw [show c0 :: l1 ++ '\n' :: rtrimL rest = (c0 :: l1) ++ '\n' :: rtrimL rest from rfl]
  rw [tokenize_line_bounded (c0 :: l1).length (c0 :: l1) (rtrimL rest)
    (Nat.le_refl _) hq hn]
  rw [dropLast_append_ne_nil _ _ (tokenize_ne_nil _)]
  rw [buildGo_lineToks (splitComma (c0 :: l1)) (splitComma_ne_nil _)
    (fun seg hseg c hc => splitComma_chars (c0 :: l1) hq seg hseg c hc) [] []]
  rw [List.nil_append, List.nil_append]
  rw [buildGo_accum]
  rw [show allRows (rtrimL rest) =
    (buildGo ([], []) ((tokenize (rtrimL rest)).dropLast)).map
      (fun row => row.map (fun f => String.mk f)) from rfl]
  simp

/-! ## Validator aggregation lemmas -/

theorem validateEntry_fold_eq (EXT : Externals) (entry : Entry) (sheet : String) :
    ∀ (l : List (String × Value)) (acc : List String),
      l.foldl
        (fun acc fv =>
          match validateField EXT entry sheet fv.1 with
          | .error m => acc ++ [fv.1 ++ ": " ++ m]
          | .ok _ => acc) acc =
      acc ++ l.filterMap
        (fun fv =>
          match validateField EXT entry sheet fv.1 with
          | .error m => some (fv.1 ++ ": " ++ m)
          | .ok _ => none) := by
  intro l
  induction l with
  | nil => intro acc; simp
  | cons fv l' ih =>
    intro acc
    simp only [List.foldl_cons, List.filterMap_cons]
    cases validateField EXT entry sheet fv.1 with
    | error m => rw [ih]; simp
    | ok u => rw [ih]

/-- The violation messages of one record, field by field, in field order. -/
theorem validateEntry_eq (EXT : Externals) (entry : Entry) (sheet : String) :
    validateEntry EXT entry sheet =
      (match entry.filterMap
          (fun fv =>
            match validateField EXT entry sheet fv.1 with
            | .error m => some (fv.1 ++ ": " ++ m)
            | .ok _ => none) with
       | [] => .ok ()
       | e :: es => .error (joinWith "\n" (e :: es))) := by
  unfold validateEntry
  rw [validateEntry_fold_eq]
  rw [List.nil_append]

theorem validateEntry_ok_iff (EXT : Externals) (entry : Entry) (sheet : String) :
    validateEntry EXT entry sheet = .ok () ↔
      ∀ fv ∈ entry, validateField EXT entry sheet fv.1 = .ok () := by
  rw [validateEntry_eq]
  cases hfm : entry.filterMap
      (fun fv =>
        match validateField EXT entry sheet fv.1 with
        | .error m => some (fv.1 ++ ": " ++ m)
        | .ok _ => none) with
  | nil =>
    simp only []
    constructor
    · intro _ fv hfv
      have := List.filterMap_eq_nil_iff.mp hfm fv hfv
      cases hvf : validateField EXT entry sheet fv.1 with
      | error m => rw [hvf] at this; simp at this
      | ok u => rfl
    · intro _; trivial
  | cons e es =>
    simp only []
    constructor
    · intro h; cases h
    · intro h
      exfalso
      have : ∀ fv ∈ entry,
          (match validateField EXT entry sheet fv.1 with
           | Except.error m => some (fv.1 ++ ": " ++ m)
           | Except.ok _ => none) = none := by
        intro fv hfv
        rw [h fv hfv]
      rw [List.filterMap_eq_nil_iff.mpr this] at hfm
      cases hfm

theorem validateErrors_fold_eq (EXT : Externals) (sheet : String) :
    ∀ (rows : List (List String)) (acc : List String),
      rows.foldl
        (fun acc row =>
          match runEntry EXT sheet row with
          | .error m => acc ++ [entryBanner row ++ "\n" ++ m]
          | .ok _ => acc) acc =
      acc ++ rows.filterMap
        (fun row =>
          match runEntry EXT sheet row with
          | .error m => some (entryBanner row ++ "\n" ++ m)
          | .ok _ => none) := by
  intro rows
  induction rows with
  | nil => intro acc; simp
  | cons row rows' ih =>
    intro acc
    simp only [List.foldl_cons, List.filterMap_cons]
    cases runEntry EXT sheet row with
    | error m => rw [ih]; simp
    | ok u => rw [ih]

/-- The aggregated report, one labelled group per failing row, in row
order. -/
theorem validateErrors_eq (EXT : Externals) (file sheet : String) :
    validateErrors EXT file sheet =
      (parseFile file).filterMap
        (fun row =>
          match runEntry EXT sheet row with
          | .error m => some (entryBanner row ++ "\n" ++ m)
          | .ok _ => none) := by
  unfold validateErrors
  rw [validateErrors_fold_eq]
  rw [List.nil_append]

theorem validate_ok_iff (EXT : Externals) (file sheet : String) :
    validate EXT file sheet = .ok () ↔
      ∀ row ∈ parseFile file, runEntry EXT sheet row = .ok () := by
  unfold validate
  rw [validateErrors_eq]
  cases hfm : (parseFile file).filterMap
      (fun row =>
        match runEntry EXT sheet row with
        | .error m => some (entryBanner row ++ "\n" ++ m)
        | .ok _ => none) with
  | nil =>
    simp only []
    constructor
    · intro _ row hrow
      have := List.filterMap_eq_nil_iff.mp hfm row hrow
      cases hre : runEntry EXT sheet row with
      | error m => rw [hre] at this; simp at this
      | ok u => rfl
    · intro _; trivial
  | cons e es =>
    simp only []
    constructor
    · intro h; cases h
    · intro h
      exfalso
      have : ∀ row ∈ parseFile file,
          (match runEntry EXT sheet row with
           | Except.error m => some (entryBanner row ++ "\n" ++ m)
           | Except.ok _ => none) = none := by
        intro row hrow
        rw [h row hrow]
      rw [List.filterMap_eq_nil_iff.mpr this] at hfm
      cases hfm

theorem validate_error_eq (EXT : Externals) (file sheet : String)
    (h : validateErrors EXT file sheet ≠ []) :
    validate EXT file sheet =
      .error ("\n" ++ joinWith "\n\n" (validateErrors EXT file sheet)) := by
  unfold validate
  cases hve : validateErrors EXT file sheet with
  | nil => exact absurd hve h
  | cons e es => rfl

/-! ## Record-mapper lemmas -/

theorem parseEntryGo_complete :
    ∀ (sch : List (String × Rule)) (row : List String), sch.length ≤ row.length →
      parseEntryGo sch row = .ok (List.zipWith
        (fun fr v => (fr.1,
          if truthyCard fr.2.multiple then Value.multi (splitSep v)
          else Value.scalar v)) sch row) := by
  intro sch
  induction sch with
  | nil => intro row _; simp [parseEntryGo]
  | cons fr sch' ih =>
    intro row hlen
    cases row with
    | nil => simp at hlen
    | cons v row' =>
      obtain ⟨f, r⟩ := fr
      show (parseEntryGo ((f, r) :: sch') (v :: row')) = _
      rw [parseEntryGo.eq_def]
      simp only []
      rw [ih row' (by simpa using hlen)]
      rfl

/-! ## Field-validation characterizations -/

theorem validateValue_eq (EXT : Externals) (entry : Entry) (sheet field : String)
    (rule : Rule) (hrule : lookupRule (SCHEMA EXT sheet) field = some rule) :
    ∀ value, validateValue EXT entry sheet field value =
      (match rule.format with
       | none => .ok ()
       | some (.list xs) =>
         if xs.contains value then .ok () else .error (msgNotIncluded value xs)
       | some (.regex src test) =>
         if test value then .ok () else .error (msgPattern value src)
       | some (.func name test) =>
         if test value then .ok () else .error (msgPattern value name)) := by
  intro value
  unfold validateValue
  rw [hrule]

theorem validateField_eq (EXT : Externals) (entry : Entry) (sheet field : String)
    (rule : Rule) (v : Value)
    (hrule : lookupRule (SCHEMA EXT sheet) field = some rule)
    (hval : lookupVal entry field = some v) (hv : v ≠ Value.undef) :
    validateField EXT entry sheet field =
      (if rule.required && valToString v == "" then .error msgRequired
       else if valToString v == "" then .ok ()
       else
         match resolveCard rule.multiple entry with
         | .error e => .error e
         | .ok m =>
           if !m && valIncludesSep v then .error msgMultiple
           else
             match v with
             | .multi ss =>
               (match collectValueErrors EXT entry sheet field ss with
                | [] => .ok ()
                | e :: es => .error (joinWith "; " (e :: es)))
             | .scalar sc => validateValue EXT entry sheet field sc
             | .undef => .error typeErrToString) := by
  unfold validateField
  rw [hrule]
  cases v with
  | scalar s => simp only [hval]
  | multi ss => simp only [hval]
  | undef => exact absurd rfl hv

theorem collectValueErrors_eq (EXT : Externals) (entry : Entry) (sheet field : String) :
    ∀ (ss : List String), collectValueErrors EXT entry sheet field ss =
      ss.filterMap (fun sc =>
        match validateValue EXT entry sheet field sc with
        | .error m => some m
        | .ok _ => none) := by
  intro ss
  induction ss with
  | nil => rfl
  | cons sc ss' ih =>
    rw [collectValueErrors.eq_def]
    simp only [List.filterMap_cons]
    cases validateValue EXT entry sheet field sc with
    | error m => rw [ih]
    | ok u => rw [ih]

/-! ## Claims -/

theorem SCHEMA_unknown (EXT : Externals) (sheet : String)
    (h1 : sheet ≠ "catalog") (h2 : sheet ≠ "authors")
    (h3 : sheet ≠ "publishers") (h4 : sheet ≠ "places") :
    SCHEMA EXT sheet = [] := by
  unfold SCHEMA
  split <;> simp_all

theorem runEntry_empty_schema (EXT : Externals) (sheet : String) (row : List String)
    (hS : SCHEMA EXT sheet = []) : runEntry EXT sheet row = .ok () := by
  unfold runEntry parseEntry
  rw [hS]
  rfl

/-- Claim C1, counterexample: calling `validate` with the unregistered sheet
name `"bogus"` on a two-line file returns success — no unknown-sheet error is
ever raised, contradicting the claim that an `UnknownSheetError` is raised
before any row is processed. -/
theorem C1_counterexample : validate EXT0 "h\na,b" "bogus" = Except.ok () := rfl

/-- Claim C1, amended: for every input file, calling `validate` with a sheet
name that is not one of the four registered sheets never raises any error at
all: `for...in` over the undefined schema maps every row to an empty record,
no check runs, and `validate` returns success. -/
theorem C1_unknown_sheet_never_raises (EXT : Externals) (file sheet : String)
    (h1 : sheet ≠ "catalog") (h2 : sheet ≠ "authors")
    (h3 : sheet ≠ "publishers") (h4 : sheet ≠ "places") :
    validate EXT file sheet = Except.ok () := by
  apply (validate_ok_iff EXT file sheet).mpr
  intro row _
  exact runEntry_empty_schema EXT sheet row (SCHEMA_unknown EXT sheet h1 h2 h3 h4)

/-- Witness for C1: the amended theorem applied to a concrete file and the
concrete unregistered sheet name `"unknown"`. -/
theorem C1_witness : validate EXT0 "h\nx" "unknown" = Except.ok () :=
  C1_unknown_sheet_never_raises EXT0 "h\nx" "unknown"
    (by decide) (by decide) (by decide) (by decide)

/-- Claim C2, counterexample: on the catalog sheet, the one-column row `x`
makes `row.shift()` return `undefined` for the `title` field, whose truthy
`multiple` attribute forces a `split` on it; the resulting `TypeError` is
caught at the row level and `validate` raises — even though no field-level
violation (missing / cardinality / format) ever occurred, no record was
mapped, and no field was checked. -/
theorem C2_counterexample :
    validate EXT0 "h\nx" "catalog" =
      Except.error ("\n===== x =====\n" ++ typeErrSplit) ∧
    parseEntry EXT0 ["x"] "catalog" = Except.error typeErrSplit :=
  ⟨rfl, rfl⟩

/-- Claim C2, amended: `validate` raises its run-ending error, carrying the
full aggregated report, iff at least one row fails to map or to validate
(for rows that map, failure means at least one field-level violation);
a violation on one field never prevents the remaining fields of the record,
or the remaining records, from being checked; when every row passes,
`validate` returns without raising. -/
theorem C2_aggregation (EXT : Externals) (file sheet : String) :
    (validate EXT file sheet = Except.ok () ↔
      ∀ row ∈ parseFile file, runEntry EXT sheet row = Except.ok ()) ∧
    (∀ entry : Entry, validateEntry EXT entry sheet = Except.ok () ↔
      ∀ fv ∈ entry, validateField EXT entry sheet fv.1 = Except.ok ()) ∧
    (validate EXT file sheet = Except.ok () ∨
      validate EXT file sheet =
        Except.error ("\n" ++ joinWith "\n\n" (validateErrors EXT file sheet))) := by
  refine ⟨validate_ok_iff EXT file sheet,
    fun entry => validateEntry_ok_iff EXT entry sheet, ?_⟩
  by_cases hve : validateErrors EXT file sheet = []
  · left
    unfold validate
    rw [hve]
  · right
    exact validate_error_eq EXT file sheet hve

/-- Witness for C2: the aggregation theorem applied to a concrete clean
places file, deriving that `validate` succeeds because every row checks out. -/
theorem C2_witness : validate EXT0 "h\nx,Q1,d" "places" = Except.ok () := by
  apply (C2_aggregation EXT0 "h\nx,Q1,d" "places").1.mpr
  intro row hrow
  rw [show parseFile "h\nx,Q1,d" = [["x", "Q1", "d"]] from rfl] at hrow
  rw [List.mem_singleton] at hrow
  rw [hrow]
  rfl

/-- Claim C3 (code bug): the data-dependent ISBN cardinality check is meant
to resolve to `true` exactly when the two ISBNs have lengths 10 and 13, but
the source indexes into `entry.ISBN.length` (a number) and reads `.length`
of `undefined`, so with two or more ISBNs it always throws a `TypeError` —
for the 10/13 pair that should pass, just as for the 10/10 pair that should
fail, and the `TypeError` surfaces as a violation on the ISBN field. -/
theorem C3_isbn_check_throws :
    CHECK_ISBN [("ISBN", Value.multi ["0123456789", "9780123456789"])] =
      Except.error typeErrLength ∧
    CHECK_ISBN [("ISBN", Value.multi ["0123456789", "0123456789"])] =
      Except.error typeErrLength ∧
    validateField EXT0 [("ISBN", Value.multi ["0123456789", "9780123456789"])]
      "catalog" "ISBN" = Except.error typeErrLength ∧
    CHECK_ISBN [("ISBN", Value.multi ["0123456789"])] = Except.ok false :=
  ⟨rfl, rfl, rfl, rfl⟩

/-- Claim C4, counterexample: the catalog `title` field has a
function-valued cardinality rule, so it is split at mapping time; with a
single language the rule resolves to `false`, and the raw value `A; B`
textually contains the separator, yet no cardinality violation is emitted:
on the split array, JS `includes('; ')` tests element membership, which can
never find the separator. -/
theorem C4_counterexample :
    validateField EXT0
      [("title", Value.multi ["A", "B"]), ("language", Value.multi ["en"])]
      "catalog" "title" = Except.ok () ∧
    CHECK_MULTILANG
      [("title", Value.multi ["A", "B"]), ("language", Value.multi ["en"])] =
      Except.ok false ∧
    valIncludesSep (Value.multi (splitSep "A; B")) = false :=
  ⟨rfl, rfl, rfl⟩

/-- Claim C4, amended: for every field whose cardinality rule is the static
boolean `false` — such fields are never split, so their value is the raw
scalar string — a non-empty value textually containing `"; "` always
produces the violation "Multiple values but only one expected", regardless
of the field's format. -/
theorem C4_static_false_cardinality (EXT : Externals) (entry : Entry)
    (sheet field : String) (rule : Rule) (s : String)
    (hrule : lookupRule (SCHEMA EXT sheet) field = some rule)
    (hmult : rule.multiple = Card.b false)
    (hval : lookupVal entry field = some (Value.scalar s))
    (hne : s ≠ "") (hsep : containsSepL s.toList = true) :
    validateField EXT entry sheet field = Except.error msgMultiple := by
  rw [validateField_eq EXT entry sheet field rule (Value.scalar s) hrule hval (by simp)]
  rw [show valToString (Value.scalar s) = s from rfl]
  rw [if_neg (by simp [hne]), if_neg (by simp [hne])]
  rw [hmult]
  rw [show resolveCard (Card.b false) entry = Except.ok false from rfl]
  rw [show valIncludesSep (Value.scalar s) = containsSepL s.toList from rfl, hsep]
  rfl

/-- Witness for C4: the amended theorem applied to the catalog `series`
field (static `multiple: false`) holding the raw value `a; b`. -/
theorem C4_witness :
    validateField EXT0 [("series", Value.scalar "a; b")] "catalog" "series" =
      Except.error msgMultiple :=
  C4_static_false_cardinality EXT0 [("series", Value.scalar "a; b")]
    "catalog" "series" _ "a; b" rfl rfl rfl (by decide) (by decide)

/-- Claim C5: on a row long enough for the sheet's schema, the record mapper
consumes the row in schema field order and stores, for exactly the fields
whose `multiple` attribute is truthy at mapping time (static `true` or a
function value, which is not invoked), the raw string split on `"; "` as an
ordered sequence, and every other field as the unmodified scalar string. -/
theorem C5_parse_entry_splits (EXT : Externals) (sheet : String) (row : List String)
    (hlen : (SCHEMA EXT sheet).length ≤ row.length) :
    parseEntry EXT row sheet = Except.ok (List.zipWith
      (fun fr v => (fr.1,
        if truthyCard fr.2.multiple then Value.multi (splitSep v)
        else Value.scalar v)) (SCHEMA EXT sheet) row) :=
  parseEntryGo_complete (SCHEMA EXT sheet) row hlen

/-- Witness for C5: the mapper theorem applied to a concrete authors row;
`full_names` (static `multiple: true`) is split, the scalar fields are kept
verbatim. -/
theorem C5_witness :
    parseEntry EXT0 ["n", "Q1", "m", "a; b"] "authors" =
      Except.ok [("name", Value.scalar "n"), ("qid", Value.scalar "Q1"),
        ("main_full_name", Value.scalar "m"), ("full_names", Value.multi ["a", "b"])] := by
  rw [C5_parse_entry_splits EXT0 "authors" ["n", "Q1", "m", "a; b"] (by decide)]
  rfl

/-- Claim C6, counterexample: the quoted field `""""` encodes the
one-character body `"` (a double-quote-wrapped body whose single literal
quote is written `""`), but the tokenizer outputs the empty string: the
source unescapes before slicing the wrapper off, so the wrapper quote pairs
up with half of the escaped quote. -/
theorem C6_counterexample :
    parseFile "h\n\"\"\"\"" = [[""]] ∧ escQuotes ['"'] = ['"', '"'] :=
  ⟨rfl, rfl⟩

/-- Claim C6, amended: for every body that is empty or contains at least one
character other than `"` (i.e. is not made of quotes only), tokenizing the
double-quote-wrapped field in which each literal `"` is written `""` yields
the original unescaped body; and a field not wrapped in quotes is output
verbatim with no unescaping. -/
theorem C6_roundtrip :
    (∀ b : List Char, (b = [] ∨ ∃ c ∈ b, c ≠ '"') →
      parseFile (String.mk ('h' :: '\n' :: '"' :: (escQuotes b ++ ['"']))) =
        [[String.mk b]]) ∧
    (∀ (c0 : Char) (cs : List Char), c0 ≠ '"' →
      (∀ c ∈ c0 :: cs, c ≠ ',' ∧ c ≠ '\n') →
      (∃ cl, (c0 :: cs).getLast? = some cl ∧ wsChar cl = false) →
      parseFile (String.mk ('h' :: '\n' :: c0 :: cs)) = [[String.mk (c0 :: cs)]]) :=
  ⟨parseFile_quoted_field, parseFile_unquoted_field⟩

/-- Witness for C6: the round-trip theorem applied to the body
`Smith, "Bob"`, whose escaped quoted form is `"Smith, ""Bob"""`. -/
theorem C6_witness :
    parseFile "h\n\"Smith, \"\"Bob\"\"\"" = [["Smith, \"Bob\""]] := by
  have h := C6_roundtrip.1 ("Smith, \"Bob\"".toList)
    (Or.inr ⟨'S', by decide, by decide⟩)
  exact h

/-- Claim C7: for every mapped record and field (with a defined value), if
the rule is required and the value is empty after joining multi-values back,
exactly the violation "Value(s) required but missing" is emitted and no
cardinality or format check runs (the result does not depend on them, even
on a throwing cardinality function); if the value is empty and the field is
not required, no violation at all is emitted. -/
theorem C7_requiredness (EXT : Externals) (entry : Entry) (sheet field : String)
    (rule : Rule) (v : Value)
    (hrule : lookupRule (SCHEMA EXT sheet) field = some rule)
    (hval : lookupVal entry field = some v) (hv : v ≠ Value.undef)
    (hempty : valToString v = "") :
    (rule.required = true →
      validateField EXT entry sheet field = Except.error msgRequired) ∧
    (rule.required = false →
      validateField EXT entry sheet field = Except.ok ()) := by
  rw [validateField_eq EXT entry sheet field rule v hrule hval hv]
  constructor
  · intro hreq
    rw [if_pos (by simp [hreq, hempty])]
  · intro hreq
    rw [if_neg (by simp [hreq]), if_pos (by simp [hempty])]

/-- Witness for C7: the requiredness theorem applied to the places sheet —
an empty required `name` yields exactly the missing-value violation, an
empty optional `qid` yields no violation. -/
theorem C7_witness :
    validateField EXT0 [("name", Value.scalar "")] "places" "name" =
      Except.error msgRequired ∧
    validateField EXT0 [("qid", Value.scalar "")] "places" "qid" =
      Except.ok () :=
  ⟨(C7_requiredness EXT0 [("name", Value.scalar "")] "places" "name" _
      (Value.scalar "") rfl rfl (by simp) rfl).1 rfl,
   (C7_requiredness EXT0 [("qid", Value.scalar "")] "places" "qid" _
      (Value.scalar "") rfl rfl (by simp) rfl).2 rfl⟩

/-- Claim C8: for every non-empty field (past the cardinality step) that
declares a format, the matching checker kind is applied to every scalar of
the value; each failing scalar contributes one message naming the expected
set, pattern, or predicate, and the per-scalar messages are joined with
`"; "` into a single violation entry; a field with no declared format never
produces a format violation. -/
theorem C8_format_checks (EXT : Externals) (entry : Entry) (sheet field : String)
    (rule : Rule) (v : Value) (m : Bool)
    (hrule : lookupRule (SCHEMA EXT sheet) field = some rule)
    (hval : lookupVal entry field = some v) (hv : v ≠ Value.undef)
    (hne : valToString v ≠ "")
    (hcard : resolveCard rule.multiple entry = Except.ok m)
    (hnosep : (!m && valIncludesSep v) = false) :
    (validateField EXT entry sheet field =
      (match (scalarsOf v).filterMap
          (fun sc =>
            match validateValue EXT entry sheet field sc with
            | .error msg => some msg
            | .ok _ => none) with
       | [] => Except.ok ()
       | e :: es => Except.error (joinWith "; " (e :: es)))) ∧
    (rule.format = none → validateField EXT entry sheet field = Except.ok ()) ∧
    (∀ value xs, rule.format = some (Format.list xs) → xs.contains value = false →
      validateValue EXT entry sheet field value = Except.error (msgNotIncluded value xs)) ∧
    (∀ value src test, rule.format = some (Format.regex src test) → test value = false →
      validateValue EXT entry sheet field value = Except.error (msgPattern value src)) ∧
    (∀ value name test, rule.format = some (Format.func name test) → test value = false →
      validateValue EXT entry sheet field value = Except.error (msgPattern value name)) := by
  have hmain : validateField EXT entry sheet field =
      (match (scalarsOf v).filterMap
          (fun sc =>
            match validateValue EXT entry sheet field sc with
            | .error msg => some msg
            | .ok _ => none) with
       | [] => Except.ok ()
       | e :: es => Except.error (joinWith "; " (e :: es))) := by
    cases v with
    | undef => exact absurd rfl hv
    | multi ss =>
      rw [validateField_eq EXT entry sheet field rule (Value.multi ss) hrule hval hv]
      rw [if_neg (by simp [hne]), if_neg (by simp [hne])]
      rw [hcard]
      simp only [hnosep, Bool.false_eq_true, if_false]
      show (match collectValueErrors EXT entry sheet field ss with
            | [] => Except.ok ()
            | e :: es => Except.error (joinWith "; " (e :: es))) = _
      rw [collectValueErrors_eq]
      rfl
    | scalar sc =>
      rw [validateField_eq EXT entry sheet field rule (Value.scalar sc) hrule hval hv]
      rw [if_neg (by simp [hne]), if_neg (by simp [hne])]
      rw [hcard]
      simp only [hnosep, Bool.false_eq_true, if_false]
      show validateValue EXT entry sheet field sc = _
      rw [show scalarsOf (Value.scalar sc) = [sc] from rfl]
      rw [List.filterMap_cons]
      cases hvv : validateValue EXT entry sheet field sc with
      | error msg => rfl
      | ok u => rfl
  refine ⟨hmain, ?_, ?_, ?_, ?_⟩
  · intro hfmt
    rw [hmain]
    have hok : ∀ sc, validateValue EXT entry sheet field sc = Except.ok () := by
      intro sc
      rw [validateValue_eq EXT entry sheet field rule hrule sc, hfmt]
    have : (scalarsOf v).filterMap
        (fun sc =>
          match validateValue EXT entry sheet field sc with
          | .error msg => some msg
          | .ok _ => none) = [] := by
      apply List.filterMap_eq_nil_iff.mpr
      intro sc _
      rw [hok sc]
    rw [this]
  · intro value xs hfmt hmem
    rw [validateValue_eq EXT entry sheet field rule hrule value, hfmt]
    simp only []
    rw [if_neg (by simpa using hmem)]
  · intro value src test hfmt htest
    rw [validateValue_eq EXT entry sheet field rule hrule value, hfmt]
    simp [htest]
  · intro value name test hfmt htest
    rw [validateValue_eq EXT entry sheet field rule hrule value, hfmt]
    simp [htest]

/-- Witness for C8: the format theorem applied to the catalog `entry_type`
field holding `book`, yielding the enumerated-set message naming the allowed
set. -/
theorem C8_witness :
    validateField EXT0 [("entry_type", Value.scalar "book")] "catalog" "entry_type" =
      Except.error (msgNotIncluded "book" FORMATS.ENTRY_TYPE) := by
  rw [(C8_format_checks EXT0 [("entry_type", Value.scalar "book")] "catalog"
    "entry_type" _ (Value.scalar "book") false rfl rfl (by simp) (by decide)
    rfl rfl).1]
  rfl

/-- Claim C9: the violation groups of the aggregated report appear in the
same order as their source rows (the report is the in-order `filterMap` of
the parsed rows), each group tagged with the record's first-field value in
its `===== id =====` banner; and a non-empty report is what the run-ending
error carries. -/
theorem C9_report_order (EXT : Externals) (file sheet : String) :
    (validateErrors EXT file sheet =
      (parseFile file).filterMap
        (fun row =>
          match runEntry EXT sheet row with
          | .error m =>
            some ("===== " ++ row.headD "undefined" ++ " =====" ++ "\n" ++ m)
          | .ok _ => none)) ∧
    (validateErrors EXT file sheet ≠ [] →
      validate EXT file sheet =
        Except.error ("\n" ++ joinWith "\n\n" (validateErrors EXT file sheet))) :=
  ⟨validateErrors_eq EXT file sheet, validate_error_eq EXT file sheet⟩

/-- Witness for C9: the report theorem applied to a concrete places file
with one failing row, showing the labelled, ordered report and the error
`validate` raises. -/
theorem C9_witness :
    validateErrors EXT0 "h\nB1,x" "places" =
      ["===== B1 =====\nqid: The value \"x\" does not conform to pattern: " ++
        "^Q[1-9][0-9]*$\ndisplay_name: " ++ typeErrToString] ∧
    validate EXT0 "h\nB1,x" "places" =
      Except.error ("\n" ++ joinWith "\n\n" (validateErrors EXT0 "h\nB1,x" "places")) := by
  refine ⟨?_, (C9_report_order EXT0 "h\nB1,x" "places").2 (by decide)⟩
  rw [(C9_report_order EXT0 "h\nB1,x" "places").1]
  rfl

/-- Claim C10, counterexample: rows are not lines.  In the file
`"a\nb",c\nd` the first row's quoted field spans the line break, so the
excluded first row covers the first two lines: the returned row sequence is
`[[d]]` and does not start at the input's second line (whose text is
`b",c`). -/
theorem C10_counterexample :
    parseFile "\"a\nb\",c\nd" = [["d"]] ∧
    trimL ("\"a\nb\",c\nd").toList =
      ['"', 'a', '\n', 'b', '"', ',', 'c', '\n', 'd'] :=
  ⟨rfl, rfl⟩

/-- Claim C10, amended: the tokenizer excludes the first row of the trimmed
input, and when the first line is plain (quote-free, so no quoted field
spans its line break) the returned row sequence is exactly the full row
sequence of the remaining text — it starts at the input's second line; an
input whose trimmed text has no newline — in particular a single-line
file — and a whitespace-only file yield zero rows, hence an empty report
(`validate` succeeds) for any sheet. -/
theorem C10_header_dropped :
    (∀ (c0 : Char) (l1 rest : List Char), wsChar c0 = false →
      (∀ c ∈ c0 :: l1, c ≠ '"') → (∀ c ∈ c0 :: l1, c ≠ '\n') →
      (∃ x ∈ rest, wsChar x = false) →
      parseFile (String.mk (c0 :: l1 ++ '\n' :: rest)) = allRows (rtrimL rest)) ∧
    (∀ file : String, '\n' ∉ trimL file.toList →
      parseFile file = [] ∧ ∀ (EXT : Externals) (sheet : String),
        validate EXT file sheet = Except.ok ()) ∧
    (∀ file : String, (∀ c ∈ file.toList, wsChar c = true) →
      parseFile file = [] ∧ ∀ (EXT : Externals) (sheet : String),
        validate EXT file sheet = Except.ok ()) := by
  refine ⟨parseFile_drops_first_line, ?_, ?_⟩
  · intro file h
    have hp := parseFile_no_newline file h
    exact ⟨hp, fun EXT sheet => validate_of_no_rows EXT file sheet hp⟩
  · intro file h
    have hp := parseFile_all_ws file h
    exact ⟨hp, fun EXT sheet => validate_of_no_rows EXT file sheet hp⟩

/-- Witness for C10: the header theorem applied to the concrete file
`id\nB1,x` (rows start at the second line), to the single-line file `abc`,
and to a whitespace-only file. -/
theorem C10_witness :
    parseFile "id\nB1,x" = [["B1", "x"]] ∧
    validate EXT0 "abc" "catalog" = Except.ok () ∧
    parseFile "  " = [] := by
  refine ⟨?_, ?_, ?_⟩
  · have h := C10_header_dropped.1 'i' ['d'] ("B1,x".toList) (by decide)
      (by decide) (by decide) ⟨'B', by decide, by decide⟩
    exact h.trans rfl
  · exact ((C10_header_dropped.2.1 "abc" (by decide)).2 EXT0 "catalog")
  · exact (C10_header_dropped.2.2 "  " (by decide)).1

end CatalogValidator
